import Mathlib

/-!
A shallow embedding of the in-memory academic-records store of the
university-management repository (the `enhanced_university_management/main.py`
variant; a fragment of `simple_university_management/main.py` is embedded
separately in the `Simple` namespace where the two variants diverge).

Modelling conventions:
* Python dicts keyed by ints become association lists `List (Nat × α)` kept in
  insertion order; `dict.get` is first-match lookup, `del` removes the binding
  (keys are unique in every reachable state, so removal is a filter), inserts
  append at the end, and in-place mutation of a looked-up value is a key-targeted
  map.  Enrollment keys `"ENR{n}"` are represented by their numeric part `n`
  (the tag `n ↦ "ENR" ++ repr n` is injective, so nothing is lost).
* Python floats (`gpa`, grade points) become exact rationals `ℚ`; `round(x, 2)`
  becomes rounding `100 * x` to the nearest integer.
* Dates become abstract day numbers `Nat`; `date.today()` is the store's
  constant `today` field.
* Emails and other free-form strings are opaque `String`s (the `EmailStr`
  format check of pydantic is out of scope of every claim).
* A handler either raises before its first write or completes, and each
  operation returns `(Option Err × State)`: the state component is the database
  exactly as the handler left it, so failure atomicity is a theorem, not an
  assumption.
* The regex `^[A-Z]{2,4}\d{3}$` checked with Python's `re.match` is embedded
  over the ASCII alphabet; Python's `$` also matches just before one trailing
  newline, which the embedding reproduces.  The FastAPI query pattern
  `^[A-DF]$` is validated by pydantic-core's anchored matcher and is embedded
  as exact membership in the five grade letters.
-/

namespace UMS

structure Professor where
  id : Nat
  name : String
  email : String
  department : String
  hire_date : Nat
deriving DecidableEq, Repr

structure Student where
  id : Nat
  name : String
  email : String
  major : String
  year : Nat
  gpa : ℚ
  academic_probation : Bool
deriving DecidableEq, Repr

structure Course where
  id : Nat
  name : String
  code : String
  credits : Nat
  max_capacity : Nat
  professor_id : Nat
  enrolled_students : Int
deriving DecidableEq, Repr

structure Enrollment where
  id : Nat
  student_id : Nat
  course_id : Nat
  enrollment_date : Nat
  grade : Option String
deriving DecidableEq, Repr

/-- Payload of `POST /professors/` (`ProfessorCreate`). -/
structure ProfessorCreate where
  name : String
  email : String
  department : String
  hire_date : Nat
deriving DecidableEq, Repr

/-- Payload of `PUT /professors/{id}` (`ProfessorUpdate`); `none` = field unset. -/
structure ProfessorUpdate where
  name : Option String
  email : Option String
  department : Option String
deriving DecidableEq, Repr

/-- Payload of `POST /students/` (`StudentCreate`). -/
structure StudentCreate where
  name : String
  email : String
  major : String
  year : Nat
deriving DecidableEq, Repr

/-- Payload of `PUT /students/{id}` (`StudentUpdate`); `none` = field unset. -/
structure StudentUpdate where
  name : Option String
  email : Option String
  major : Option String
  year : Option Nat
deriving DecidableEq, Repr

/-- Payload of `POST /courses/` (`CourseCreate`). -/
structure CourseCreate where
  name : String
  code : String
  credits : Nat
  max_capacity : Nat
  professor_id : Nat
deriving DecidableEq, Repr

/-- Payload of `PUT /courses/{id}` (`CourseUpdate`); `none` = field unset. -/
structure CourseUpdate where
  name : Option String
  code : Option String
  credits : Option Nat
  max_capacity : Option Nat
  professor_id : Option Nat
deriving DecidableEq, Repr

/-- The structured application errors (`NotFound`, `Conflict`, pydantic
validation failures), abbreviated to the data the claims distinguish:
the resource name for `NotFound`, the `error_code` for `Conflict`, the
offending field for a validation error. -/
inductive Err where
  | notFound (resource : String)
  | conflict (error_code : String)
  | validation (field : String)
deriving DecidableEq, Repr

/-- The global in-memory database `db` together with the id counters and the
(constant) current date. -/
structure State where
  professors : List (Nat × Professor)
  students : List (Nat × Student)
  courses : List (Nat × Course)
  enrollments : List (Nat × Enrollment)
  next_professor_id : Nat
  next_student_id : Nat
  next_course_id : Nat
  next_enrollment_id : Nat
  today : Nat
deriving DecidableEq, Repr

/-- `dict.get(k)`: first binding of the key. -/
def dictGet (l : List (Nat × α)) (k : Nat) : Option α :=
  (l.find? (fun p => p.1 == k)).map (·.2)

/-- `k in dict`. -/
def dictHas (l : List (Nat × α)) (k : Nat) : Bool :=
  (dictGet l k).isSome

/-- In-place mutation of the value bound to `k` (a no-op when `k` is absent). -/
def mapDict (l : List (Nat × α)) (k : Nat) (f : α → α) : List (Nat × α) :=
  l.map (fun p => if p.1 = k then (p.1, f p.2) else p)

/-- `del dict[k]`; keys are unique in every reachable state, so removing every
binding of `k` removes exactly the one binding the source deletes. -/
def delDict (l : List (Nat × α)) (k : Nat) : List (Nat × α) :=
  l.filter (fun p => !(p.1 == k))

/-- Python's `str.upper()` over the string's characters (a structural
re-statement of `String.toUpper` that the kernel can evaluate). -/
def strUpper (s : String) : String :=
  ⟨s.data.map Char.toUpper⟩

/-- `GRADE_TO_POINTS` dict: `{"A": 4.0, "B": 3.0, "C": 2.0, "D": 1.0, "F": 0.0}`. -/
def GRADE_TO_POINTS (g : String) : Option ℚ :=
  if g == "A" then some 4
  else if g == "B" then some 3
  else if g == "C" then some 2
  else if g == "D" then some 1
  else if g == "F" then some 0
  else none

/-- Python truthiness of the optional `grade` field (`None` and `""` are falsy). -/
def gradeTruthy : Option String → Bool
  | none => false
  | some g => !(g == "")

/-- `round(x, 2)`: round to 2 decimal places. -/
def round2 (q : ℚ) : ℚ :=
  ((round (100 * q) : ℤ) : ℚ) / 100

/-- One iteration of the accumulation loop of `calculate_gpa`: if the
enrollment's course is live and its grade is in `GRADE_TO_POINTS`, add
`points * credits` to the first component and `credits` to the second. -/
def gpaStep (courses : List (Nat × Course)) (acc : ℚ × ℚ) (p : Nat × Enrollment) : ℚ × ℚ :=
  match dictGet courses p.2.course_id, p.2.grade with
  | some c, some g =>
    match GRADE_TO_POINTS g with
    | some pts => (acc.1 + pts * (c.credits : ℚ), acc.2 + (c.credits : ℚ))
    | none => acc
  | _, _ => acc

/-- The `(total_points, total_credits)` accumulation loop of `calculate_gpa`
over the (already filtered) enrollments. -/
def gpaPoints (courses : List (Nat × Course)) (es : List (Nat × Enrollment)) : ℚ × ℚ :=
  es.foldl (gpaStep courses) (0, 0)

/-- The pure value computed by `calculate_gpa`, as a function of the courses and
enrollments collections: the credit-weighted rounded average over the student's
truthy-graded enrollments, `0.0` when no credits accumulate. -/
def gpaOfParts (courses : List (Nat × Course)) (enrollments : List (Nat × Enrollment))
    (sid : Nat) : ℚ :=
  let es := enrollments.filter (fun p => p.2.student_id == sid && gradeTruthy p.2.grade)
  let tp_tc := gpaPoints courses es
  if 0 < tp_tc.2 then round2 (tp_tc.1 / tp_tc.2) else 0

/-- The GPA `calculate_gpa` would store for `sid` in state `σ`. -/
def gpaOf (σ : State) (sid : Nat) : ℚ :=
  gpaOfParts σ.courses σ.enrollments sid

/-- The two field assignments at the end of `calculate_gpa`:
`student.gpa = ...` and `student.academic_probation = student.gpa < 2.0`. -/
def setGpaFlag (g : ℚ) (st : Student) : Student :=
  { st with gpa := g, academic_probation := decide (g < 2) }

/-- `calculate_gpa(student_id)`: returns unchanged when the student is absent,
otherwise stores the recomputed `gpa` and `academic_probation = gpa < 2.0`. -/
def calculate_gpa (σ : State) (sid : Nat) : State :=
  match dictGet σ.students sid with
  | none => σ
  | some _ =>
    let g := gpaOf σ sid
    { σ with students := mapDict σ.students sid (setGpaFlag g) }

/-- `check_unique_email(email, current_id)`: scans professors, then students,
raising `Conflict(EMAIL_ALREADY_EXISTS)` on the first record holding `email`
whose `id` field differs from `current_id`. -/
def check_unique_email (σ : State) (email : String) (current_id : Option Nat) : Option Err :=
  if σ.professors.any (fun p => p.2.email == email && !(some p.2.id == current_id)) then
    some (.conflict "EMAIL_ALREADY_EXISTS")
  else if σ.students.any (fun s => s.2.email == email && !(some s.2.id == current_id)) then
    some (.conflict "EMAIL_ALREADY_EXISTS")
  else none

/-- `get_enrollment_key_by_ids(student_id, course_id)`: key of the first
enrollment linking the pair, `None` when there is none. -/
def get_enrollment_key_by_ids (σ : State) (sid cid : Nat) : Option Nat :=
  (σ.enrollments.find? (fun p => p.2.student_id == sid && p.2.course_id == cid)).map (·.1)

/-- ASCII `[A-Z]`. -/
def isAsciiUpper (c : Char) : Bool :=
  decide ('A' ≤ c) && decide (c ≤ 'Z')

/-- ASCII `\d` (the model restricts the alphabet to ASCII; Python's `\d` under
`re.UNICODE` additionally admits non-ASCII decimal digits). -/
def isAsciiDigit (c : Char) : Bool :=
  decide ('0' ≤ c) && decide (c ≤ '9')

/-- `re.match(r'^[A-Z]{2,4}\d{3}$', v)`: 2–4 uppercase letters, then exactly 3
digits, then the end of the string — where Python's `$` also matches just
before one trailing newline.  Because letters and digits are disjoint, the
greedy bounded repetition matches exactly when the maximal letter prefix has
length 2–4 and the remainder is the digit block. -/
def courseCodeOk (s : String) : Bool :=
  let l := s.data
  let letters := l.takeWhile isAsciiUpper
  let rest := l.dropWhile isAsciiUpper
  decide (2 ≤ letters.length) && decide (letters.length ≤ 4) &&
  (match rest with
   | [d1, d2, d3] => isAsciiDigit d1 && isAsciiDigit d2 && isAsciiDigit d3
   | [d1, d2, d3, c] => isAsciiDigit d1 && isAsciiDigit d2 && isAsciiDigit d3 && (c == '\n')
   | _ => false)

/-- The query-parameter pattern `^[A-DF]$` on the grade argument, enforced by
pydantic-core's anchored matcher before the handler runs. -/
def gradeParamOk (g : String) : Bool :=
  g == "A" || g == "B" || g == "C" || g == "D" || g == "F"

/-- `POST /professors/` (`create_professor`): the pydantic `hire_date` validator
(not in the future) runs first, then the email-uniqueness check, then the
insert under the next professor id. -/
def create_professor (σ : State) (d : ProfessorCreate) : Option Err × State :=
  if σ.today < d.hire_date then (some (.validation "hire_date"), σ)
  else
    match check_unique_email σ d.email none with
    | some e => (some e, σ)
    | none =>
      let n := σ.next_professor_id
      (none, { σ with
        professors := σ.professors ++ [(n, ⟨n, d.name, d.email, d.department, d.hire_date⟩)],
        next_professor_id := n + 1 })

/-- The `setattr` loop of `update_professor` over `model_dump(exclude_unset=True)`. -/
def applyProfessorUpdate (p : Professor) (d : ProfessorUpdate) : Professor :=
  { p with
    name := d.name.getD p.name,
    email := d.email.getD p.email,
    department := d.department.getD p.department }

/-- `PUT /professors/{id}` (`update_professor`): 404 when absent; the email
check runs only when the payload's email is truthy, excluding `current_id`. -/
def update_professor (σ : State) (pid : Nat) (d : ProfessorUpdate) : Option Err × State :=
  match dictGet σ.professors pid with
  | none => (some (.notFound "Professor"), σ)
  | some _ =>
    match (match d.email with
           | some e => if e == "" then none else check_unique_email σ e (some pid)
           | none => none) with
    | some err => (some err, σ)
    | none =>
      (none, { σ with professors := mapDict σ.professors pid (fun p => applyProfessorUpdate p d) })

/-- `DELETE /professors/{id}` (`delete_professor`): 404 when absent, conflict
while any course references the professor, otherwise remove the record. -/
def delete_professor (σ : State) (pid : Nat) : Option Err × State :=
  if !(dictHas σ.professors pid) then (some (.notFound "Professor"), σ)
  else if !(((σ.courses.filter (fun c => c.2.professor_id == pid)).map (·.2.id)).isEmpty) then
    (some (.conflict "PROFESSOR_HAS_COURSES"), σ)
  else (none, { σ with professors := delDict σ.professors pid })

/-- `POST /students/` (`create_student`): email-uniqueness check, then insert;
`gpa` defaults to `0.0` and `academic_probation` to `False`. -/
def create_student (σ : State) (d : StudentCreate) : Option Err × State :=
  match check_unique_email σ d.email none with
  | some e => (some e, σ)
  | none =>
    let n := σ.next_student_id
    (none, { σ with
      students := σ.students ++ [(n, ⟨n, d.name, d.email, d.major, d.year, 0, false⟩)],
      next_student_id := n + 1 })

/-- The `setattr` loop of `update_student` over `model_dump(exclude_unset=True)`. -/
def applyStudentUpdate (s : Student) (d : StudentUpdate) : Student :=
  { s with
    name := d.name.getD s.name,
    email := d.email.getD s.email,
    major := d.major.getD s.major,
    year := d.year.getD s.year }

/-- `PUT /students/{id}` (`update_student`). -/
def update_student (σ : State) (sid : Nat) (d : StudentUpdate) : Option Err × State :=
  match dictGet σ.students sid with
  | none => (some (.notFound "Student"), σ)
  | some _ =>
    match (match d.email with
           | some e => if e == "" then none else check_unique_email σ e (some sid)
           | none => none) with
    | some err => (some err, σ)
    | none =>
      (none, { σ with students := mapDict σ.students sid (fun s => applyStudentUpdate s d) })

/-- The cascade loop of `delete_student`: for each of the student's enrollment
keys, decrement the (still live) course's `enrolled_students`, then delete the
enrollment.  The source re-reads `db["enrollments"][eid]` inside the loop; as
earlier iterations delete only other keys, the re-read returns the snapshot
entry, so the fold runs over the snapshot list directly. -/
def cascadeDrop (work : List (Nat × Enrollment)) (σ : State) : State :=
  match work with
  | [] => σ
  | e :: rest =>
    let σ1 :=
      if dictHas σ.courses e.2.course_id then
        { σ with courses := (mapDict σ.courses e.2.course_id
            (fun c => { c with enrolled_students := c.enrolled_students - 1 })) }
      else σ
    cascadeDrop rest { σ1 with enrollments := delDict σ1.enrollments e.1 }

/-- `DELETE /students/{id}` (`delete_student`): 404 when absent; cascade over
the student's enrollments, then delete the student record. -/
def delete_student (σ : State) (sid : Nat) : Option Err × State :=
  if !(dictHas σ.students sid) then (some (.notFound "Student"), σ)
  else
    let work := σ.enrollments.filter (fun p => p.2.student_id == sid)
    let σ1 := cascadeDrop work σ
    (none, { σ1 with students := delDict σ1.students sid })

/-- `POST /courses/` (`create_course`): the pydantic course-code validator runs
first, then the professor-existence check, then the insert; the stored code is
`code.upper()` (a no-op on accepted inputs except for a tolerated trailing
newline) and `enrolled_students` starts at `0`. -/
def create_course (σ : State) (d : CourseCreate) : Option Err × State :=
  if !(courseCodeOk d.code) then (some (.validation "code"), σ)
  else if !(dictHas σ.professors d.professor_id) then (some (.notFound "Professor"), σ)
  else
    let n := σ.next_course_id
    (none, { σ with
      courses := σ.courses ++
        [(n, ⟨n, d.name, strUpper d.code, d.credits, d.max_capacity, d.professor_id, 0⟩)],
      next_course_id := n + 1 })

/-- The `setattr` loop of `update_course` over `model_dump(exclude_unset=True)`.
`CourseUpdate` is a plain `BaseModel` without `CourseBase`'s code validator and
`validate_assignment` is off, so a supplied code is stored raw — no format
check, no uppercasing. -/
def applyCourseUpdate (c : Course) (d : CourseUpdate) : Course :=
  { c with
    name := d.name.getD c.name,
    code := d.code.getD c.code,
    credits := d.credits.getD c.credits,
    max_capacity := d.max_capacity.getD c.max_capacity,
    professor_id := d.professor_id.getD c.professor_id }

/-- `PUT /courses/{id}` (`update_course`): 404 when the course is absent; then
404 when a supplied `professor_id` is absent; then the raw field patch (the
update payload model performs no course-code validation). -/
def update_course (σ : State) (cid : Nat) (d : CourseUpdate) : Option Err × State :=
  match dictGet σ.courses cid with
  | none => (some (.notFound "Course"), σ)
  | some _ =>
    if (match d.professor_id with
        | some p => !(dictHas σ.professors p)
        | none => false) then (some (.notFound "Professor"), σ)
    else
      (none, { σ with courses := mapDict σ.courses cid (fun c => applyCourseUpdate c d) })

/-- `DELETE /courses/{id}` (`delete_course`): 404 when absent; delete every
enrollment referencing the course (no count fix-up, no GPA recompute), then
delete the course record. -/
def delete_course (σ : State) (cid : Nat) : Option Err × State :=
  if !(dictHas σ.courses cid) then (some (.notFound "Course"), σ)
  else
    let work := σ.enrollments.filter (fun p => p.2.course_id == cid)
    let es := work.foldl (fun es e => delDict es e.1) σ.enrollments
    (none, { σ with enrollments := es, courses := delDict σ.courses cid })

/-- `POST /enrollments/` (`enroll_student_in_course`): verify the student, then
the course, then capacity, then no duplicate for the pair of the fetched
records' ids; insert the new enrollment under the next enrollment id with
today's date and no grade, and increment the course's `enrolled_students`. -/
def enroll_student_in_course (σ : State) (sid cid : Nat) : Option Err × State :=
  match dictGet σ.students sid with
  | none => (some (.notFound "Student"), σ)
  | some st =>
    match dictGet σ.courses cid with
    | none => (some (.notFound "Course"), σ)
    | some co =>
      if (co.max_capacity : Int) ≤ co.enrolled_students then
        (some (.conflict "ENROLLMENT_CAPACITY_EXCEEDED"), σ)
      else if (get_enrollment_key_by_ids σ st.id co.id).isSome then
        (some (.conflict "DUPLICATE_ENROLLMENT"), σ)
      else
        let n := σ.next_enrollment_id
        (none, { σ with
          enrollments := σ.enrollments ++ [(n, ⟨n, sid, cid, σ.today, none⟩)],
          courses := (mapDict σ.courses cid
            (fun c => { c with enrolled_students := c.enrolled_students + 1 })),
          next_enrollment_id := n + 1 })

/-- `PUT /enrollments/{sid}/{cid}/grade` (`update_enrollment_grade`): the query
pattern `^[A-DF]$` is enforced before the handler; look up the enrollment by
pair (404 when none), store `grade.upper()`, recompute the student's GPA. -/
def update_enrollment_grade (σ : State) (sid cid : Nat) (grade : String) : Option Err × State :=
  if !(gradeParamOk grade) then (some (.validation "grade"), σ)
  else
    match get_enrollment_key_by_ids σ sid cid with
    | none => (some (.notFound "Enrollment"), σ)
    | some k =>
      let σ1 := { σ with enrollments :=
        (mapDict σ.enrollments k (fun e => { e with grade := some (strUpper grade) })) }
      (none, calculate_gpa σ1 sid)

/-- `DELETE /enrollments/{sid}/{cid}` (`drop_course`): look up the enrollment by
pair (404 when none); decrement the course's count when the course still
exists (skip otherwise); delete the enrollment; recompute the student's GPA. -/
def drop_course (σ : State) (sid cid : Nat) : Option Err × State :=
  match get_enrollment_key_by_ids σ sid cid with
  | none => (some (.notFound "Enrollment"), σ)
  | some k =>
    let σ1 :=
      if dictHas σ.courses cid then
        { σ with courses := (mapDict σ.courses cid
            (fun c => { c with enrolled_students := c.enrolled_students - 1 })) }
      else σ
    let σ2 := { σ1 with enrollments := delDict σ1.enrollments k }
    (none, calculate_gpa σ2 sid)

/-- The mutating operations of the store. -/
inductive Op where
  | createProfessor (d : ProfessorCreate)
  | updateProfessor (pid : Nat) (d : ProfessorUpdate)
  | deleteProfessor (pid : Nat)
  | createStudent (d : StudentCreate)
  | updateStudent (sid : Nat) (d : StudentUpdate)
  | deleteStudent (sid : Nat)
  | createCourse (d : CourseCreate)
  | updateCourse (cid : Nat) (d : CourseUpdate)
  | deleteCourse (cid : Nat)
  | enroll (sid cid : Nat)
  | setGrade (sid cid : Nat) (grade : String)
  | dropEnrollment (sid cid : Nat)

/-- One request against the store. -/
def step (σ : State) : Op → Option Err × State
  | .createProfessor d => create_professor σ d
  | .updateProfessor pid d => update_professor σ pid d
  | .deleteProfessor pid => delete_professor σ pid
  | .createStudent d => create_student σ d
  | .updateStudent sid d => update_student σ sid d
  | .deleteStudent sid => delete_student σ sid
  | .createCourse d => create_course σ d
  | .updateCourse cid d => update_course σ cid d
  | .deleteCourse cid => delete_course σ cid
  | .enroll sid cid => enroll_student_in_course σ sid cid
  | .setGrade sid cid grade => update_enrollment_grade σ sid cid grade
  | .dropEnrollment sid cid => drop_course σ sid cid

/-- The module-initialisation contents of `db` (one professor, one student, one
course at `enrolled_students = 1`, one enrollment `ENR1` linking them) with the
id counters at 2; dates are abstract day numbers. -/
def initialState : State :=
  { professors := [(1, ⟨1, "Dr. Alan Turing", "alan.turing@bletchleypark.edu",
      "Computer Science", 0⟩)],
    students := [(1, ⟨1, "Joan Clarke", "joan.clarke@example.com", "Mathematics", 2, 0, false⟩)],
    courses := [(1, ⟨1, "Introduction to Cryptography", "CS101", 3, 30, 1, 1⟩)],
    enrollments := [(1, ⟨1, 1, 1, 0, none⟩)],
    next_professor_id := 2,
    next_student_id := 2,
    next_course_id := 2,
    next_enrollment_id := 2,
    today := 0 }

/-- States the store can be in: the initial database and everything a request
(successful or failed) can produce from one. -/
inductive Reachable : State → Prop where
  | init : Reachable initialState
  | next (σ : State) (op : Op) : Reachable σ → Reachable (step σ op).2

end UMS

namespace Simple

/-- The `Student` record of the simple variant (no probation flag). -/
structure Student where
  id : Nat
  name : String
  email : String
  major : String
  year : Nat
  gpa : ℚ
deriving DecidableEq, Repr

/-- The simple variant's `StudentUpdate(StudentBase)`: every field is required,
so a payload always carries all four. -/
structure StudentUpdate where
  name : String
  email : String
  major : String
  year : Nat
deriving DecidableEq, Repr

/-- The `setattr` loop of the simple variant's `update_student` over
`model_dump()` (no `exclude_unset`): every payload field is written. -/
def applyStudentUpdate (s : Student) (d : StudentUpdate) : Student :=
  { s with name := d.name, email := d.email, major := d.major, year := d.year }

end Simple

namespace UMS

/-- Keys of an association list, in order. -/
def keys (l : List (Nat × α)) : List Nat :=
  l.map (·.1)

/-- Number of live enrollments referencing course `cid`. -/
def enrollCount (σ : State) (cid : Nat) : Nat :=
  (σ.enrollments.filter (fun p => p.2.course_id == cid)).length

/-- The (student, course) pairs of the enrollment collection, in order. -/
def pairsOf (l : List (Nat × Enrollment)) : List (Nat × Nat) :=
  l.map (fun p => (p.2.student_id, p.2.course_id))

/-- Structural well-formedness of the store, true initially and preserved by
every request: dict keys are unique and agree with the records' `id` fields,
id counters lie strictly above every allocated key, every course's
`enrolled_students` equals its live enrollment count, enrollments reference
live students and courses, enrollment pairs are distinct, and a set probation
flag only ever witnesses a GPA below 2.0. -/
structure Inv (σ : State) : Prop where
  nodupP : (keys σ.professors).Nodup
  nodupS : (keys σ.students).Nodup
  nodupC : (keys σ.courses).Nodup
  nodupE : (keys σ.enrollments).Nodup
  keyIdP : ∀ p ∈ σ.professors, p.2.id = p.1
  keyIdS : ∀ p ∈ σ.students, p.2.id = p.1
  keyIdC : ∀ p ∈ σ.courses, p.2.id = p.1
  keyIdE : ∀ p ∈ σ.enrollments, p.2.id = p.1
  ctrP : ∀ p ∈ σ.professors, p.1 < σ.next_professor_id
  ctrS : ∀ p ∈ σ.students, p.1 < σ.next_student_id
  ctrC : ∀ p ∈ σ.courses, p.1 < σ.next_course_id
  ctrE : ∀ p ∈ σ.enrollments, p.1 < σ.next_enrollment_id
  countInv : ∀ p ∈ σ.courses, p.2.enrolled_students = (enrollCount σ p.1 : Int)
  refS : ∀ p ∈ σ.enrollments, dictHas σ.students p.2.student_id = true
  refC : ∀ p ∈ σ.enrollments, dictHas σ.courses p.2.course_id = true
  dupFree : (pairsOf σ.enrollments).Nodup
  probImp : ∀ p ∈ σ.students, p.2.academic_probation = true → p.2.gpa < 2

/-- The GPA derivation invariant: every live student's stored `gpa` is exactly
what `calculate_gpa` would recompute for them in the current state. -/
def GpaInv (σ : State) : Prop :=
  ∀ p ∈ σ.students, p.2.gpa = gpaOf σ p.1

/-- Operations other than course update and course deletion (the two requests
that can invalidate stored GPAs without recomputing them). -/
def preservesGpa : Op → Prop
  | .updateCourse _ _ => False
  | .deleteCourse _ => False
  | _ => True

end UMS

namespace UMS

/- Batteries ships the rational-number operations `@[irreducible]`; re-opening
them lets concrete states (whose stored GPAs are rationals) evaluate under
`decide`.  This is an elaborator-side reducibility hint only. -/
attribute [local semireducible] Rat.mul Rat.add Rat.inv Rat.sub

theorem mem_keys {α : Type _} {l : List (Nat × α)} {k : Nat} :
    k ∈ keys l ↔ ∃ v, (k, v) ∈ l := by
  constructor
  · intro h
    rcases List.mem_map.1 h with ⟨p, hp, hk⟩
    subst hk
    exact ⟨p.2, by simpa using hp⟩
  · rintro ⟨v, hv⟩
    exact List.mem_map.2 ⟨(k, v), hv, rfl⟩

theorem dictGet_cons {α : Type _} {a : Nat} {v : α} {l : List (Nat × α)} {k : Nat} :
    dictGet ((a, v) :: l) k = if a = k then some v else dictGet l k := by
  by_cases h : a = k <;> simp [dictGet, List.find?_cons, h]

theorem dictGet_eq_none {α : Type _} {l : List (Nat × α)} {k : Nat} :
    dictGet l k = none ↔ k ∉ keys l := by
  induction l with
  | nil => simp [dictGet, keys]
  | cons a t ih =>
    rcases a with ⟨a1, a2⟩
    rw [dictGet_cons]
    by_cases h : a1 = k
    · subst h
      simp [keys]
    · rw [if_neg h, ih]
      unfold keys
      simp only [List.map_cons, List.mem_cons]
      constructor
      · intro hk
        rintro (rfl | hmem)
        · exact h rfl
        · exact hk hmem
      · intro hk hmem
        exact hk (Or.inr hmem)

theorem mem_of_dictGet {α : Type _} {l : List (Nat × α)} {k : Nat} {v : α}
    (h : dictGet l k = some v) : (k, v) ∈ l := by
  induction l with
  | nil => simp [dictGet] at h
  | cons a t ih =>
    rcases a with ⟨a1, a2⟩
    rw [dictGet_cons] at h
    by_cases ha : a1 = k
    · simp [ha] at h
      subst ha h
      exact List.mem_cons_self _ _
    · simp [ha] at h
      exact List.mem_cons_of_mem _ (ih h)

theorem dictGet_of_mem {α : Type _} {l : List (Nat × α)} {k : Nat} {v : α}
    (hnd : (keys l).Nodup) (h : (k, v) ∈ l) : dictGet l k = some v := by
  induction l with
  | nil => simp at h
  | cons a t ih =>
    rcases a with ⟨a1, a2⟩
    rw [keys, List.map_cons, List.nodup_cons] at hnd
    rw [dictGet_cons]
    rcases List.mem_cons.1 h with h1 | h1
    · cases h1
      simp
    · by_cases ha : a1 = k
      · exfalso
        apply hnd.1
        subst ha
        exact mem_keys.2 ⟨v, h1⟩
      · rw [if_neg ha]
        exact ih hnd.2 h1

theorem dictHas_iff {α : Type _} {l : List (Nat × α)} {k : Nat} :
    dictHas l k = true ↔ k ∈ keys l := by
  rw [dictHas, Option.isSome_iff_ne_none, ne_eq, dictGet_eq_none]
  tauto

theorem dictHas_false_iff {α : Type _} {l : List (Nat × α)} {k : Nat} :
    dictHas l k = false ↔ k ∉ keys l := by
  rw [← dictGet_eq_none, dictHas]
  cases dictGet l k <;> simp


theorem keys_mapDict {α : Type _} (l : List (Nat × α)) (k : Nat) (f : α → α) :
    keys (mapDict l k f) = keys l := by
  unfold keys mapDict
  rw [List.map_map]
  apply List.map_congr_left
  intro p _
  by_cases h : p.1 = k <;> simp [h]

theorem mapDict_cons {α : Type _} (a1 : Nat) (a2 : α) (t : List (Nat × α)) (k : Nat)
    (f : α → α) :
    mapDict ((a1, a2) :: t) k f =
      (if a1 = k then (a1, f a2) else (a1, a2)) :: mapDict t k f := by
  rfl

theorem dictGet_mapDict {α : Type _} (l : List (Nat × α)) (k j : Nat) (f : α → α) :
    dictGet (mapDict l k f) j = if k = j then (dictGet l j).map f else dictGet l j := by
  induction l with
  | nil => by_cases h : k = j <;> simp [mapDict, dictGet, h]
  | cons a t ih =>
    rcases a with ⟨a1, a2⟩
    rw [mapDict_cons]
    by_cases ha : a1 = k
    · rw [if_pos ha, dictGet_cons, dictGet_cons]
      by_cases hj : a1 = j
      · subst hj
        rw [if_pos rfl, if_pos rfl, if_pos ha.symm]
        rfl
      · rw [if_neg hj, if_neg hj, ih]
    · rw [if_neg ha, dictGet_cons, dictGet_cons]
      by_cases hj : a1 = j
      · subst hj
        rw [if_pos rfl, if_pos rfl, if_neg (fun h : k = a1 => ha h.symm)]
      · rw [if_neg hj, if_neg hj, ih]

theorem dictHas_mapDict {α : Type _} (l : List (Nat × α)) (k j : Nat) (f : α → α) :
    dictHas (mapDict l k f) j = dictHas l j := by
  unfold dictHas
  rw [dictGet_mapDict]
  by_cases h : k = j
  · rw [if_pos h]
    cases dictGet l j <;> simp
  · rw [if_neg h]

theorem mapDict_eq_self {α : Type _} {l : List (Nat × α)} {k : Nat} {f : α → α}
    (h : k ∉ keys l) : mapDict l k f = l := by
  unfold mapDict
  have : ∀ p ∈ l, (if p.1 = k then (p.1, f p.2) else p) = id p := by
    intro p hp
    have : p.1 ≠ k := by
      intro hk
      exact h (hk ▸ mem_keys.2 ⟨p.2, by simpa using hp⟩)
    simp [this]
  rw [List.map_congr_left this, List.map_id]


theorem mem_delDict {α : Type _} {l : List (Nat × α)} {k : Nat} {p : Nat × α} :
    p ∈ delDict l k ↔ p ∈ l ∧ p.1 ≠ k := by
  unfold delDict
  rw [List.mem_filter]
  simp

theorem delDict_sublist {α : Type _} (l : List (Nat × α)) (k : Nat) :
    (delDict l k).Sublist l :=
  List.filter_sublist l

theorem keys_delDict_sublist {α : Type _} (l : List (Nat × α)) (k : Nat) :
    (keys (delDict l k)).Sublist (keys l) :=
  (delDict_sublist l k).map _

theorem dictGet_delDict {α : Type _} (l : List (Nat × α)) (k j : Nat) (h : j ≠ k) :
    dictGet (delDict l k) j = dictGet l j := by
  induction l with
  | nil => rfl
  | cons a t ih =>
    rcases a with ⟨a1, a2⟩
    by_cases hk : a1 = k
    · subst hk
      have : delDict ((a1, a2) :: t) a1 = delDict t a1 := by
        unfold delDict
        rw [List.filter_cons]
        simp
      rw [this, ih, dictGet_cons, if_neg (fun hh : a1 = j => h hh.symm)]
    · have : delDict ((a1, a2) :: t) k = (a1, a2) :: delDict t k := by
        unfold delDict
        rw [List.filter_cons]
        simp [hk]
      rw [this, dictGet_cons, dictGet_cons]
      by_cases hj : a1 = j
      · rw [if_pos hj, if_pos hj]
      · rw [if_neg hj, if_neg hj, ih]

theorem dictGet_append {α : Type _} (l m : List (Nat × α)) (k : Nat) :
    dictGet (l ++ m) k = if k ∈ keys l then dictGet l k else dictGet m k := by
  induction l with
  | nil => simp [keys]
  | cons a t ih =>
    rcases a with ⟨a1, a2⟩
    rw [List.cons_append, dictGet_cons, dictGet_cons, ih]
    have hmem : k ∈ keys ((a1, a2) :: t) ↔ a1 = k ∨ k ∈ keys t := by
      unfold keys
      rw [List.map_cons, List.mem_cons]
      constructor
      · rintro (rfl | h)
        · exact Or.inl rfl
        · exact Or.inr h
      · rintro (rfl | h)
        · exact Or.inl rfl
        · exact Or.inr h
    by_cases ha : a1 = k
    · rw [if_pos ha, if_pos (hmem.2 (Or.inl ha)), if_pos ha]
    · rw [if_neg ha]
      by_cases hk : k ∈ keys t
      · rw [if_pos hk, if_pos (hmem.2 (Or.inr hk)), if_neg ha]
      · rw [if_neg hk, if_neg (fun h => (hmem.1 h).elim ha hk)]

theorem dictGet_append_left {α : Type _} {l : List (Nat × α)} (m : List (Nat × α)) {k : Nat}
    {v : α} (h : dictGet l k = some v) : dictGet (l ++ m) k = some v := by
  rw [dictGet_append]
  have hk : k ∈ keys l := by
    by_contra hk
    rw [dictGet_eq_none.2 hk] at h
    exact Option.noConfusion h
  rw [if_pos hk]
  exact h

theorem dictGet_append_of_absent {α : Type _} {l : List (Nat × α)} (m : List (Nat × α))
    {k : Nat} (h : k ∉ keys l) : dictGet (l ++ m) k = dictGet m k := by
  rw [dictGet_append, if_neg h]

theorem keys_append {α : Type _} (l m : List (Nat × α)) :
    keys (l ++ m) = keys l ++ keys m := by
  unfold keys
  rw [List.map_append]

theorem length_filter_split {α : Type _} (l : List α) (p q : α → Bool) :
    (l.filter p).length =
      (l.filter (fun a => p a && q a)).length + (l.filter (fun a => p a && !(q a))).length := by
  induction l with
  | nil => rfl
  | cons a t ih =>
    rw [List.filter_cons, List.filter_cons, List.filter_cons]
    cases hp : p a <;> cases hq : q a <;> simp [hp, hq, ih] <;> omega


theorem foldl_delDict {α β : Type _} (work : List (Nat × β)) (l : List (Nat × α)) :
    work.foldl (fun es e => delDict es e.1) l
      = l.filter (fun p => !((work.map (·.1)).contains p.1)) := by
  induction work generalizing l with
  | nil => simp
  | cons e rest ih =>
    rw [List.foldl_cons, ih]
    unfold delDict
    rw [List.filter_filter]
    apply List.filter_congr
    intro p _
    simp only [List.map_cons, List.contains_cons, Bool.not_or]
    rw [Bool.and_comm]

/-- The one-step decrement of a course's enrolled count. -/
def decEnrolled (c : Course) : Course :=
  { c with enrolled_students := c.enrolled_students - 1 }

theorem foldl_dec_courses (work : List (Nat × Enrollment)) (C : List (Nat × Course)) :
    work.foldl (fun cs e => mapDict cs e.2.course_id decEnrolled) C
      = C.map (fun p => (p.1, { p.2 with enrolled_students :=
          p.2.enrolled_students
            - ((work.filter (fun e => e.2.course_id == p.1)).length : Int) })) := by
  induction work generalizing C with
  | nil =>
    simp only [List.foldl_nil, List.filter_nil, List.length_nil, Nat.cast_zero, sub_zero]
    have : ∀ p ∈ C, (p.1, { p.2 with enrolled_students := p.2.enrolled_students }) = id p := by
      intro p _
      rcases p with ⟨k, c⟩
      rcases c with ⟨i, n, co, cr, mc, pf, en⟩
      rfl
    rw [List.map_congr_left this, List.map_id]
  | cons e rest ih =>
    rw [List.foldl_cons, ih]
    unfold mapDict
    rw [List.map_map]
    apply List.map_congr_left
    intro p _
    rcases p with ⟨k, c⟩
    by_cases h : k = e.2.course_id
    · subst h
      simp only [Function.comp, if_pos rfl]
      rcases c with ⟨i, n, co, cr, mc, pf, en⟩
      unfold decEnrolled
      simp only [List.filter_cons, beq_self_eq_true, if_true, List.length_cons,
        Prod.mk.injEq, Course.mk.injEq, true_and, and_true]
      push_cast
      ring
    · simp only [Function.comp, if_neg h]
      rw [List.filter_cons, if_neg (by simp; intro hh; exact h hh.symm)]

theorem cascadeDrop_spec (work : List (Nat × Enrollment)) (σ : State) :
    cascadeDrop work σ =
      { σ with
        courses := work.foldl (fun cs e => mapDict cs e.2.course_id decEnrolled) σ.courses,
        enrollments := work.foldl (fun es e => delDict es e.1) σ.enrollments } := by
  induction work generalizing σ with
  | nil => rfl
  | cons e rest ih =>
    show cascadeDrop (e :: rest) σ = _
    unfold cascadeDrop
    rw [List.foldl_cons, List.foldl_cons]
    cases h : dictHas σ.courses e.2.course_id
    · simp only [h, Bool.false_eq_true, if_false]
      rw [ih]
      have habs : mapDict σ.courses e.2.course_id decEnrolled = σ.courses := by
        apply mapDict_eq_self
        exact dictHas_false_iff.1 h
      rw [habs]
    · simp only [h, if_true]
      rw [ih]
      rfl


theorem nodup_keys_append_fresh {α : Type _} {l : List (Nat × α)} {n : Nat} {v : α}
    (hnd : (keys l).Nodup) (hlt : ∀ p ∈ l, p.1 < n) :
    (keys (l ++ [(n, v)])).Nodup := by
  rw [keys_append]
  refine List.Nodup.append hnd (List.nodup_singleton n) ?_
  intro x hx hx2
  rcases mem_keys.1 hx with ⟨w, hw⟩
  have := hlt (x, w) hw
  unfold keys at hx2
  simp at hx2
  omega

theorem pairsOf_mapDict (l : List (Nat × Enrollment)) (k : Nat) (f : Enrollment → Enrollment)
    (hs : ∀ e, (f e).student_id = e.student_id) (hc : ∀ e, (f e).course_id = e.course_id) :
    pairsOf (mapDict l k f) = pairsOf l := by
  unfold pairsOf mapDict
  rw [List.map_map]
  apply List.map_congr_left
  intro p _
  by_cases h : p.1 = k <;> simp [h, hs, hc]

theorem pairsOf_append (l m : List (Nat × Enrollment)) :
    pairsOf (l ++ m) = pairsOf l ++ pairsOf m := by
  unfold pairsOf
  rw [List.map_append]

theorem pairsOf_sublist {l m : List (Nat × Enrollment)} (h : l.Sublist m) :
    (pairsOf l).Sublist (pairsOf m) :=
  h.map _

theorem length_filter_mapDict {α : Type _} (l : List (Nat × α)) (k : Nat) (f : α → α)
    (pred : Nat × α → Bool)
    (h : ∀ q ∈ l, pred (if q.1 = k then (q.1, f q.2) else q) = pred q) :
    ((mapDict l k f).filter pred).length = (l.filter pred).length := by
  induction l with
  | nil => rfl
  | cons a t ih =>
    rw [show mapDict (a :: t) k f
        = (if a.1 = k then (a.1, f a.2) else a) :: mapDict t k f from by
      rcases a with ⟨a1, a2⟩
      rw [mapDict_cons]]
    rw [List.filter_cons, List.filter_cons]
    have hh := h a (List.mem_cons_self _ _)
    have iht := ih (fun q hq => h q (List.mem_cons_of_mem _ hq))
    cases hp : pred a
    · rw [hp] at hh
      rw [hh]
      simp only [Bool.false_eq_true, if_false]
      exact iht
    · rw [hp] at hh
      rw [hh]
      simp only [if_true, List.length_cons]
      omega

theorem filter_mapDict_of_false {α : Type _} (l : List (Nat × α)) (k : Nat) (f : α → α)
    (pred : Nat × α → Bool)
    (h : ∀ q ∈ l, q.1 = k → pred (q.1, f q.2) = false ∧ pred q = false) :
    (mapDict l k f).filter pred = l.filter pred := by
  induction l with
  | nil => rfl
  | cons a t ih =>
    rcases a with ⟨a1, a2⟩
    rw [mapDict_cons, List.filter_cons, List.filter_cons]
    have iht := ih (fun q hq hk => h q (List.mem_cons_of_mem _ hq) hk)
    by_cases ha : a1 = k
    · have h2 := h (a1, a2) (List.mem_cons_self _ _) ha
      rw [if_pos ha, h2.1, h2.2]
      simp only [Bool.false_eq_true, if_false]
      exact iht
    · rw [if_neg ha]
      cases hp : pred (a1, a2) <;> simp [hp, iht]


theorem filter_delDict_of_false {α : Type _} (l : List (Nat × α)) (k : Nat)
    (pred : Nat × α → Bool)
    (h : ∀ q ∈ l, q.1 = k → pred q = false) :
    (delDict l k).filter pred = l.filter pred := by
  induction l with
  | nil => rfl
  | cons a t ih =>
    have iht := ih (fun q hq hk => h q (List.mem_cons_of_mem _ hq) hk)
    unfold delDict at iht ⊢
    rw [List.filter_cons, List.filter_cons]
    by_cases ha : a.1 = k
    · have hp := h a (List.mem_cons_self _ _) ha
      simp only [ha, beq_self_eq_true, Bool.not_true, Bool.false_eq_true, if_false, hp]
      exact iht
    · have : (!(a.1 == k)) = true := by simp [ha]
      rw [this]
      simp only [if_true]
      cases hp : pred a <;> simp [hp, iht]

theorem gpaStep_congr {C C' : List (Nat × Course)} {p : Nat × Enrollment}
    (h : (dictGet C' p.2.course_id).map Course.credits
        = (dictGet C p.2.course_id).map Course.credits)
    (acc : ℚ × ℚ) : gpaStep C' acc p = gpaStep C acc p := by
  unfold gpaStep
  cases hC : dictGet C p.2.course_id with
  | none =>
    have hC' : dictGet C' p.2.course_id = none := by
      rw [hC] at h
      cases hx : dictGet C' p.2.course_id
      · rfl
      · rw [hx] at h
        simp at h
    rw [hC']
  | some c =>
    cases hx : dictGet C' p.2.course_id with
    | none =>
      rw [hC, hx] at h
      simp at h
    | some c' =>
      rw [hC, hx] at h
      have hcred : c'.credits = c.credits := by simpa using h
      cases hg : p.2.grade with
      | none => rfl
      | some g =>
        cases hgp : GRADE_TO_POINTS g with
        | none => simp [hgp]
        | some pts => simp [hgp, hcred]

theorem gpaPoints_congr {C C' : List (Nat × Course)} {es : List (Nat × Enrollment)}
    (h : ∀ p ∈ es, (dictGet C' p.2.course_id).map Course.credits
        = (dictGet C p.2.course_id).map Course.credits) :
    gpaPoints C' es = gpaPoints C es := by
  unfold gpaPoints
  have haux : ∀ acc : ℚ × ℚ, es.foldl (gpaStep C') acc = es.foldl (gpaStep C) acc := by
    induction es with
    | nil => intro acc; rfl
    | cons p t ih =>
      intro acc
      rw [List.foldl_cons, List.foldl_cons,
        gpaStep_congr (h p (List.mem_cons_self _ _)) acc]
      exact ih (fun q hq => h q (List.mem_cons_of_mem _ hq)) _
  exact haux _

theorem gpaOfParts_congr {C C' : List (Nat × Course)} {E E' : List (Nat × Enrollment)}
    {sid : Nat}
    (hE : E'.filter (fun p => p.2.student_id == sid && gradeTruthy p.2.grade)
        = E.filter (fun p => p.2.student_id == sid && gradeTruthy p.2.grade))
    (hC : ∀ p ∈ E.filter (fun p => p.2.student_id == sid && gradeTruthy p.2.grade),
        (dictGet C' p.2.course_id).map Course.credits
          = (dictGet C p.2.course_id).map Course.credits) :
    gpaOfParts C' E' sid = gpaOfParts C E sid := by
  unfold gpaOfParts
  simp only [hE, gpaPoints_congr hC]

theorem inv_initialState : Inv initialState := by
  refine ⟨?_, ?_, ?_, ?_, ?_, ?_, ?_, ?_, ?_, ?_, ?_, ?_, ?_, ?_, ?_, ?_, ?_⟩ <;> decide

theorem mapDict_forall {α : Type _} (l : List (Nat × α)) (k : Nat) (f : α → α)
    (P : Nat × α → Prop)
    (hold : ∀ p ∈ l, p.1 ≠ k → P p) (hnew : ∀ p ∈ l, p.1 = k → P (p.1, f p.2)) :
    ∀ p ∈ mapDict l k f, P p := by
  intro p hp
  rcases List.mem_map.1 hp with ⟨q, hq, hqe⟩
  by_cases hk : q.1 = k
  · rw [if_pos hk] at hqe
    rw [← hqe]
    exact hnew q hq hk
  · rw [if_neg hk] at hqe
    rw [← hqe]
    exact hold q hq hk

theorem delDict_forall {α : Type _} {l : List (Nat × α)} {k : Nat}
    (P : Nat × α → Prop) (hold : ∀ p ∈ l, P p) :
    ∀ p ∈ delDict l k, P p := by
  intro p hp
  exact hold p (mem_delDict.1 hp).1

theorem nodup_entries_unique {α : Type _} {l : List (Nat × α)} {k : Nat} {v w : α}
    (hnd : (keys l).Nodup) (h1 : (k, v) ∈ l) (h2 : (k, w) ∈ l) : v = w := by
  have e1 := dictGet_of_mem hnd h1
  have e2 := dictGet_of_mem hnd h2
  rw [e1] at e2
  exact Option.some.inj e2

theorem get_enrollment_key_none {σ : State} {s c : Nat} :
    get_enrollment_key_by_ids σ s c = none ↔
      ∀ p ∈ σ.enrollments, ¬(p.2.student_id = s ∧ p.2.course_id = c) := by
  unfold get_enrollment_key_by_ids
  rw [Option.map_eq_none', List.find?_eq_none]
  constructor
  · intro h p hp hpc
    have := h p hp
    simp [hpc.1, hpc.2] at this
  · intro h p hp
    have := h p hp
    simp only [Bool.and_eq_true, beq_iff_eq]
    intro hc
    exact this ⟨hc.1, hc.2⟩

theorem get_enrollment_key_some {σ : State} {s c k : Nat}
    (h : get_enrollment_key_by_ids σ s c = some k) :
    ∃ e, (k, e) ∈ σ.enrollments ∧ e.student_id = s ∧ e.course_id = c := by
  unfold get_enrollment_key_by_ids at h
  rcases Option.map_eq_some'.1 h with ⟨p, hfind, hk⟩
  have hmem := List.mem_of_find?_eq_some hfind
  have hpred := List.find?_some hfind
  simp only [Bool.and_eq_true, beq_iff_eq] at hpred
  refine ⟨p.2, ?_, hpred.1, hpred.2⟩
  rw [← hk]
  simpa using hmem

theorem inv_create_professor (σ : State) (d : ProfessorCreate) (h : Inv σ) :
    Inv (create_professor σ d).2 := by
  unfold create_professor
  split
  · exact h
  · split
    · exact h
    · dsimp only
      refine ⟨?_, h.nodupS, h.nodupC, h.nodupE, ?_, h.keyIdS, h.keyIdC, h.keyIdE,
        ?_, h.ctrS, h.ctrC, h.ctrE, h.countInv, h.refS, h.refC, h.dupFree, h.probImp⟩
      · exact nodup_keys_append_fresh h.nodupP h.ctrP
      · intro p hp
        rcases List.mem_append.1 hp with hp | hp
        · exact h.keyIdP p hp
        · rw [List.mem_singleton.1 hp]
      · intro p hp
        rcases List.mem_append.1 hp with hp | hp
        · exact Nat.lt_succ_of_lt (h.ctrP p hp)
        · rw [List.mem_singleton.1 hp]
          exact Nat.lt_succ_self _

theorem inv_update_professor (σ : State) (pid : Nat) (d : ProfessorUpdate) (h : Inv σ) :
    Inv (update_professor σ pid d).2 := by
  unfold update_professor
  split
  · exact h
  · split
    · exact h
    · dsimp only
      refine ⟨?_, h.nodupS, h.nodupC, h.nodupE, ?_, h.keyIdS, h.keyIdC, h.keyIdE,
        ?_, h.ctrS, h.ctrC, h.ctrE, h.countInv, h.refS, h.refC, h.dupFree, h.probImp⟩
      · rw [keys_mapDict]
        exact h.nodupP
      · intro p hp
        refine mapDict_forall σ.professors pid (fun p => applyProfessorUpdate p d)
          (fun q => q.2.id = q.1) ?_ ?_ p hp
        · intro q hq _
          exact h.keyIdP q hq
        · intro q hq _
          exact h.keyIdP q hq
      · intro p hp
        refine mapDict_forall σ.professors pid (fun p => applyProfessorUpdate p d)
          (fun q => q.1 < σ.next_professor_id) ?_ ?_ p hp
        · intro q hq _
          exact h.ctrP q hq
        · intro q hq _
          exact h.ctrP q hq

theorem inv_delete_professor (σ : State) (pid : Nat) (h : Inv σ) :
    Inv (delete_professor σ pid).2 := by
  unfold delete_professor
  split
  · exact h
  · split
    · exact h
    · dsimp only
      refine ⟨?_, h.nodupS, h.nodupC, h.nodupE, ?_, h.keyIdS, h.keyIdC, h.keyIdE,
        ?_, h.ctrS, h.ctrC, h.ctrE, h.countInv, h.refS, h.refC, h.dupFree, h.probImp⟩
      · exact List.Nodup.sublist (keys_delDict_sublist _ _) h.nodupP
      · exact delDict_forall _ h.keyIdP
      · exact delDict_forall _ h.ctrP

theorem inv_create_student (σ : State) (d : StudentCreate) (h : Inv σ) :
    Inv (create_student σ d).2 := by
  unfold create_student
  split
  · exact h
  · dsimp only
    refine ⟨h.nodupP, ?_, h.nodupC, h.nodupE, h.keyIdP, ?_, h.keyIdC, h.keyIdE,
      h.ctrP, ?_, h.ctrC, h.ctrE, h.countInv, ?_, h.refC, h.dupFree, ?_⟩
    · exact nodup_keys_append_fresh h.nodupS h.ctrS
    · intro p hp
      rcases List.mem_append.1 hp with hp | hp
      · exact h.keyIdS p hp
      · rw [List.mem_singleton.1 hp]
    · intro p hp
      rcases List.mem_append.1 hp with hp | hp
      · exact Nat.lt_succ_of_lt (h.ctrS p hp)
      · rw [List.mem_singleton.1 hp]
        exact Nat.lt_succ_self _
    · intro p hp
      have := h.refS p hp
      rw [dictHas_iff] at this ⊢
      rw [keys_append]
      exact List.mem_append.2 (Or.inl this)
    · intro p hp
      rcases List.mem_append.1 hp with hp | hp
      · exact h.probImp p hp
      · rw [List.mem_singleton.1 hp]
        intro habs
        exact absurd habs (by simp)

theorem inv_update_student (σ : State) (sid : Nat) (d : StudentUpdate) (h : Inv σ) :
    Inv (update_student σ sid d).2 := by
  unfold update_student
  split
  · exact h
  · split
    · exact h
    · dsimp only
      refine ⟨h.nodupP, ?_, h.nodupC, h.nodupE, h.keyIdP, ?_, h.keyIdC, h.keyIdE,
        h.ctrP, ?_, h.ctrC, h.ctrE, h.countInv, ?_, h.refC, h.dupFree, ?_⟩
      · rw [keys_mapDict]
        exact h.nodupS
      · intro p hp
        refine mapDict_forall σ.students sid (fun s => applyStudentUpdate s d)
          (fun q => q.2.id = q.1) ?_ ?_ p hp
        · intro q hq _
          exact h.keyIdS q hq
        · intro q hq _
          exact h.keyIdS q hq
      · intro p hp
        refine mapDict_forall σ.students sid (fun s => applyStudentUpdate s d)
          (fun q => q.1 < σ.next_student_id) ?_ ?_ p hp
        · intro q hq _
          exact h.ctrS q hq
        · intro q hq _
          exact h.ctrS q hq
      · intro p hp
        rw [dictHas_mapDict]
        exact h.refS p hp
      · intro p hp
        refine mapDict_forall σ.students sid (fun s => applyStudentUpdate s d)
          (fun q => q.2.academic_probation = true → q.2.gpa < 2) ?_ ?_ p hp
        · intro q hq _
          exact h.probImp q hq
        · intro q hq _
          exact h.probImp q hq

theorem inv_create_course (σ : State) (d : CourseCreate) (h : Inv σ) :
    Inv (create_course σ d).2 := by
  unfold create_course
  split
  · exact h
  · split
    · exact h
    · dsimp only
      refine ⟨h.nodupP, h.nodupS, ?_, h.nodupE, h.keyIdP, h.keyIdS, ?_, h.keyIdE,
        h.ctrP, h.ctrS, ?_, h.ctrE, ?_, h.refS, ?_, h.dupFree, h.probImp⟩
      · exact nodup_keys_append_fresh h.nodupC h.ctrC
      · intro p hp
        rcases List.mem_append.1 hp with hp | hp
        · exact h.keyIdC p hp
        · rw [List.mem_singleton.1 hp]
      · intro p hp
        rcases List.mem_append.1 hp with hp | hp
        · exact Nat.lt_succ_of_lt (h.ctrC p hp)
        · rw [List.mem_singleton.1 hp]
          exact Nat.lt_succ_self _
      · intro p hp
        rcases List.mem_append.1 hp with hp | hp
        · exact h.countInv p hp
        · rw [List.mem_singleton.1 hp]
          have hempty : σ.enrollments.filter
              (fun p => p.2.course_id == σ.next_course_id) = [] := by
            rw [List.filter_eq_nil_iff]
            intro q hq
            have hc := h.refC q hq
            rw [dictHas_iff] at hc
            rcases mem_keys.1 hc with ⟨v, hv⟩
            have := h.ctrC (q.2.course_id, v) hv
            simp only [beq_iff_eq]
            omega
          show (0 : Int) = _
          unfold enrollCount
          rw [show ({ σ with
              courses := σ.courses ++ [(σ.next_course_id,
                ⟨σ.next_course_id, d.name, strUpper d.code, d.credits, d.max_capacity,
                  d.professor_id, 0⟩)],
              next_course_id := σ.next_course_id + 1 } : State).enrollments
            = σ.enrollments from rfl]
          rw [hempty]
          rfl
      · intro p hp
        have hc := h.refC p hp
        unfold dictHas at hc ⊢
        cases hg : dictGet σ.courses p.2.course_id
        · rw [hg] at hc
          simp at hc
        · rw [dictGet_append_left _ hg]
          rfl

theorem inv_update_course (σ : State) (cid : Nat) (d : CourseUpdate) (h : Inv σ) :
    Inv (update_course σ cid d).2 := by
  unfold update_course
  split
  · exact h
  · split
    · exact h
    · dsimp only
      refine ⟨h.nodupP, h.nodupS, ?_, h.nodupE, h.keyIdP, h.keyIdS, ?_, h.keyIdE,
        h.ctrP, h.ctrS, ?_, h.ctrE, ?_, h.refS, ?_, h.dupFree, h.probImp⟩
      · rw [keys_mapDict]
        exact h.nodupC
      · intro p hp
        refine mapDict_forall σ.courses cid (fun c => applyCourseUpdate c d)
          (fun q => q.2.id = q.1) ?_ ?_ p hp
        · intro q hq _
          exact h.keyIdC q hq
        · intro q hq _
          exact h.keyIdC q hq
      · intro p hp
        refine mapDict_forall σ.courses cid (fun c => applyCourseUpdate c d)
          (fun q => q.1 < σ.next_course_id) ?_ ?_ p hp
        · intro q hq _
          exact h.ctrC q hq
        · intro q hq _
          exact h.ctrC q hq
      · intro p hp
        refine mapDict_forall σ.courses cid (fun c => applyCourseUpdate c d)
          (fun q => q.2.enrolled_students = (enrollCount σ q.1 : Int)) ?_ ?_ p hp
        · intro q hq _
          exact h.countInv q hq
        · intro q hq _
          exact h.countInv q hq
      · intro p hp
        rw [dictHas_mapDict]
        exact h.refC p hp

theorem inv_enroll (σ : State) (sid cid : Nat) (h : Inv σ) :
    Inv (enroll_student_in_course σ sid cid).2 := by
  unfold enroll_student_in_course
  split
  · exact h
  · rename_i st hst
    split
    · exact h
    · rename_i co hco
      split
      · exact h
      · split
        · exact h
        · rename_i hcap hdup
          have hstid : st.id = sid := h.keyIdS (sid, st) (mem_of_dictGet hst)
          have hcoid : co.id = cid := h.keyIdC (cid, co) (mem_of_dictGet hco)
          have hnone : get_enrollment_key_by_ids σ sid cid = none := by
            rw [← hstid, ← hcoid]
            cases hx : get_enrollment_key_by_ids σ st.id co.id
            · rfl
            · rw [hx] at hdup
              simp at hdup
          have hnopair := get_enrollment_key_none.1 hnone
          dsimp only
          refine ⟨h.nodupP, h.nodupS, ?_, ?_, h.keyIdP, h.keyIdS, ?_, ?_,
            h.ctrP, h.ctrS, ?_, ?_, ?_, ?_, ?_, ?_, h.probImp⟩
          · rw [keys_mapDict]
            exact h.nodupC
          · exact nodup_keys_append_fresh h.nodupE h.ctrE
          · intro p hp
            refine mapDict_forall σ.courses cid
              (fun c => { c with enrolled_students := c.enrolled_students + 1 })
              (fun q => q.2.id = q.1) ?_ ?_ p hp
            · intro q hq _
              exact h.keyIdC q hq
            · intro q hq _
              exact h.keyIdC q hq
          · intro p hp
            rcases List.mem_append.1 hp with hp | hp
            · exact h.keyIdE p hp
            · rw [List.mem_singleton.1 hp]
          · intro p hp
            refine mapDict_forall σ.courses cid
              (fun c => { c with enrolled_students := c.enrolled_students + 1 })
              (fun q => q.1 < σ.next_course_id) ?_ ?_ p hp
            · intro q hq _
              exact h.ctrC q hq
            · intro q hq _
              exact h.ctrC q hq
          · intro p hp
            rcases List.mem_append.1 hp with hp | hp
            · exact Nat.lt_succ_of_lt (h.ctrE p hp)
            · rw [List.mem_singleton.1 hp]
              exact Nat.lt_succ_self _
          · -- countInv
            have hfilter : ∀ x : Nat,
                ((σ.enrollments ++
                    [(σ.next_enrollment_id,
                      (⟨σ.next_enrollment_id, sid, cid, σ.today, none⟩ : Enrollment))]).filter
                  (fun p => p.2.course_id == x)).length
                = (σ.enrollments.filter (fun p => p.2.course_id == x)).length
                  + (if cid = x then 1 else 0) := by
              intro x
              rw [List.filter_append, List.length_append]
              by_cases hx : cid = x <;> simp [hx]
            intro p hp
            refine mapDict_forall σ.courses cid
              (fun c => { c with enrolled_students := c.enrolled_students + 1 })
              (fun q => q.2.enrolled_students
                = (((σ.enrollments ++
                    [(σ.next_enrollment_id,
                      (⟨σ.next_enrollment_id, sid, cid, σ.today, none⟩ : Enrollment))]).filter
                  (fun p => p.2.course_id == q.1)).length : Int)) ?_ ?_ p hp
            · intro q hq hne
              rw [hfilter q.1, if_neg (fun hc => hne hc.symm)]
              have := h.countInv q hq
              unfold enrollCount at this
              rw [this]
              push_cast
              ring
            · intro q hq heq
              show q.2.enrolled_students + 1 = _
              rw [hfilter q.1, if_pos heq.symm]
              have := h.countInv q hq
              unfold enrollCount at this
              rw [this]
              push_cast
              ring
          · intro p hp
            rcases List.mem_append.1 hp with hp | hp
            · exact h.refS p hp
            · rw [List.mem_singleton.1 hp]
              show (dictGet σ.students sid).isSome = true
              rw [hst]
              rfl
          · intro p hp
            rcases List.mem_append.1 hp with hp | hp
            · show dictHas (mapDict σ.courses cid
                (fun c => { c with enrolled_students := c.enrolled_students + 1 }))
                p.2.course_id = true
              rw [dictHas_mapDict]
              exact h.refC p hp
            · rw [List.mem_singleton.1 hp]
              show dictHas (mapDict σ.courses cid
                (fun c => { c with enrolled_students := c.enrolled_students + 1 })) cid = true
              rw [dictHas_mapDict]
              unfold dictHas
              rw [hco]
              rfl
          · show (pairsOf (σ.enrollments ++ _)).Nodup
            rw [pairsOf_append]
            refine List.Nodup.append h.dupFree (List.nodup_singleton _) ?_
            intro x hx hx2
            unfold pairsOf at hx2
            simp only [List.map_cons, List.map_nil, List.mem_singleton] at hx2
            rcases List.mem_map.1 (hx2 ▸ hx) with ⟨q, hq, hqe⟩
            exact hnopair q hq ⟨congrArg Prod.fst hqe, congrArg Prod.snd hqe⟩

theorem filter_delDict_count {α : Type _} {l : List (Nat × α)} {k : Nat} {e : α}
    (pred : Nat × α → Bool)
    (hnd : (keys l).Nodup) (hmem : (k, e) ∈ l) (hpred : pred (k, e) = true) :
    ((delDict l k).filter pred).length + 1 = (l.filter pred).length := by
  induction l with
  | nil => simp at hmem
  | cons a t ih =>
    rw [keys, List.map_cons, List.nodup_cons] at hnd
    rcases List.mem_cons.1 hmem with hh | hh
    · subst hh
      have hdel : delDict ((k, e) :: t) k = t := by
        unfold delDict
        rw [List.filter_cons]
        simp only [beq_self_eq_true, Bool.not_true, Bool.false_eq_true, if_false]
        apply List.filter_eq_self.2
        intro q hq
        simp only [Bool.not_eq_true', beq_eq_false_iff_ne, ne_eq]
        intro hqk
        exact hnd.1 (hqk ▸ mem_keys.2 ⟨q.2, by simpa using hq⟩)
      rw [hdel, List.filter_cons, if_pos hpred, List.length_cons]
    · have hak : a.1 ≠ k := by
        intro hkk
        apply hnd.1
        rw [hkk]
        exact mem_keys.2 ⟨e, hh⟩
      have hdel : delDict (a :: t) k = a :: delDict t k := by
        unfold delDict
        rw [List.filter_cons]
        simp [hak]
      rw [hdel, List.filter_cons, List.filter_cons]
      cases hp : pred a
      · simp only [Bool.false_eq_true, if_false]
        exact ih hnd.2 hh
      · simp only [if_true, List.length_cons]
        have := ih hnd.2 hh
        omega

theorem inv_calculate_gpa (σ : State) (sid : Nat) (h : Inv σ) :
    Inv (calculate_gpa σ sid) := by
  unfold calculate_gpa
  split
  · exact h
  · dsimp only
    refine ⟨h.nodupP, ?_, h.nodupC, h.nodupE, h.keyIdP, ?_, h.keyIdC, h.keyIdE,
      h.ctrP, ?_, h.ctrC, h.ctrE, h.countInv, ?_, h.refC, h.dupFree, ?_⟩
    · rw [keys_mapDict]
      exact h.nodupS
    · intro p hp
      refine mapDict_forall σ.students sid (setGpaFlag (gpaOf σ sid))
        (fun q => q.2.id = q.1) ?_ ?_ p hp
      · intro q hq _
        exact h.keyIdS q hq
      · intro q hq _
        exact h.keyIdS q hq
    · intro p hp
      refine mapDict_forall σ.students sid (setGpaFlag (gpaOf σ sid))
        (fun q => q.1 < σ.next_student_id) ?_ ?_ p hp
      · intro q hq _
        exact h.ctrS q hq
      · intro q hq _
        exact h.ctrS q hq
    · intro p hp
      show dictHas (mapDict σ.students sid (setGpaFlag (gpaOf σ sid))) p.2.student_id = true
      rw [dictHas_mapDict]
      exact h.refS p hp
    · intro p hp
      refine mapDict_forall σ.students sid (setGpaFlag (gpaOf σ sid))
        (fun q => q.2.academic_probation = true → q.2.gpa < 2) ?_ ?_ p hp
      · intro q hq _
        exact h.probImp q hq
      · intro q hq _
        intro hdec
        exact of_decide_eq_true hdec

theorem inv_update_enrollment_grade (σ : State) (sid cid : Nat) (g : String) (h : Inv σ) :
    Inv (update_enrollment_grade σ sid cid g).2 := by
  unfold update_enrollment_grade
  split
  · exact h
  · split
    · exact h
    · rename_i k hk
      dsimp only
      apply inv_calculate_gpa
      refine ⟨h.nodupP, h.nodupS, h.nodupC, ?_, h.keyIdP, h.keyIdS, h.keyIdC, ?_,
        h.ctrP, h.ctrS, h.ctrC, ?_, ?_, ?_, ?_, ?_, h.probImp⟩
      · rw [keys_mapDict]
        exact h.nodupE
      · intro p hp
        refine mapDict_forall σ.enrollments k
          (fun e => { e with grade := some (strUpper g) })
          (fun q => q.2.id = q.1) ?_ ?_ p hp
        · intro q hq _
          exact h.keyIdE q hq
        · intro q hq _
          exact h.keyIdE q hq
      · intro p hp
        refine mapDict_forall σ.enrollments k
          (fun e => { e with grade := some (strUpper g) })
          (fun q => q.1 < σ.next_enrollment_id) ?_ ?_ p hp
        · intro q hq _
          exact h.ctrE q hq
        · intro q hq _
          exact h.ctrE q hq
      · intro p hp
        show p.2.enrolled_students
          = (((mapDict σ.enrollments k (fun e => { e with grade := some (strUpper g) })).filter
              (fun q => q.2.course_id == p.1)).length : Int)
        rw [length_filter_mapDict]
        · exact h.countInv p hp
        · intro q _
          by_cases hqk : q.1 = k
          · rw [if_pos hqk]
          · rw [if_neg hqk]
      · intro p hp
        refine mapDict_forall σ.enrollments k
          (fun e => { e with grade := some (strUpper g) })
          (fun q => dictHas σ.students q.2.student_id = true) ?_ ?_ p hp
        · intro q hq _
          exact h.refS q hq
        · intro q hq _
          exact h.refS q hq
      · intro p hp
        refine mapDict_forall σ.enrollments k
          (fun e => { e with grade := some (strUpper g) })
          (fun q => dictHas σ.courses q.2.course_id = true) ?_ ?_ p hp
        · intro q hq _
          exact h.refC q hq
        · intro q hq _
          exact h.refC q hq
      · show (pairsOf (mapDict σ.enrollments k
          (fun e => { e with grade := some (strUpper g) }))).Nodup
        rw [pairsOf_mapDict]
        · exact h.dupFree
        · intro e
          rfl
        · intro e
          rfl

theorem inv_drop_course (σ : State) (sid cid : Nat) (h : Inv σ) :
    Inv (drop_course σ sid cid).2 := by
  unfold drop_course
  split
  · exact h
  · rename_i k hk
    rcases get_enrollment_key_some hk with ⟨e, hmem, hes, hec⟩
    have hhasc : dictHas σ.courses cid = true := by
      have := h.refC (k, e) hmem
      rw [show (k, e).2.course_id = cid from hec] at this
      exact this
    dsimp only
    rw [if_pos hhasc]
    apply inv_calculate_gpa
    have hkey_course : ∀ r ∈ σ.enrollments, r.1 = k → r.2.course_id = cid := by
      intro r hr hrk
      have hre : (k, r.2) ∈ σ.enrollments := by
        rw [← hrk]
        simpa using hr
      have := nodup_entries_unique h.nodupE hre hmem
      rw [this]
      exact hec
    refine ⟨h.nodupP, h.nodupS, ?_, ?_, h.keyIdP, h.keyIdS, ?_, ?_,
      h.ctrP, h.ctrS, ?_, ?_, ?_, ?_, ?_, ?_, h.probImp⟩
    · rw [keys_mapDict]
      exact h.nodupC
    · exact List.Nodup.sublist (keys_delDict_sublist _ _) h.nodupE
    · intro p hp
      refine mapDict_forall σ.courses cid
        (fun c => { c with enrolled_students := c.enrolled_students - 1 })
        (fun q => q.2.id = q.1) ?_ ?_ p hp
      · intro q hq _
        exact h.keyIdC q hq
      · intro q hq _
        exact h.keyIdC q hq
    · exact delDict_forall _ h.keyIdE
    · intro p hp
      refine mapDict_forall σ.courses cid
        (fun c => { c with enrolled_students := c.enrolled_students - 1 })
        (fun q => q.1 < σ.next_course_id) ?_ ?_ p hp
      · intro q hq _
        exact h.ctrC q hq
      · intro q hq _
        exact h.ctrC q hq
    · exact delDict_forall _ h.ctrE
    · intro p hp
      refine mapDict_forall σ.courses cid
        (fun c => { c with enrolled_students := c.enrolled_students - 1 })
        (fun q => q.2.enrolled_students
          = (((delDict σ.enrollments k).filter
              (fun r => r.2.course_id == q.1)).length : Int)) ?_ ?_ p hp
      · intro q hq hne
        have hfil : (delDict σ.enrollments k).filter (fun r => r.2.course_id == q.1)
            = σ.enrollments.filter (fun r => r.2.course_id == q.1) := by
          apply filter_delDict_of_false
          intro r hr hrk
          have := hkey_course r hr hrk
          simp only [beq_eq_false_iff_ne, ne_eq, this]
          intro hcq
          exact hne hcq.symm
        rw [hfil]
        exact h.countInv q hq
      · intro q hq hqc
        have hcnt := filter_delDict_count (fun r => r.2.course_id == q.1)
          h.nodupE hmem (by
            show (e.course_id == q.1) = true
            rw [hec, hqc]
            simp)
        have hci := h.countInv q hq
        unfold enrollCount at hci
        show q.2.enrolled_students - 1 = _
        rw [hci]
        rw [show (σ.enrollments.filter (fun r => r.2.course_id == q.1)).length
            = ((delDict σ.enrollments k).filter (fun r => r.2.course_id == q.1)).length + 1
          from hcnt.symm]
        push_cast
        ring
    · exact delDict_forall _ h.refS
    · intro p hp
      show dictHas (mapDict σ.courses cid
        (fun c => { c with enrolled_students := c.enrolled_students - 1 }))
        p.2.course_id = true
      rw [dictHas_mapDict]
      exact delDict_forall _ h.refC p hp
    · exact List.Nodup.sublist (pairsOf_sublist (delDict_sublist _ _)) h.dupFree

theorem contains_keys_iff {α : Type _} {m : List (Nat × α)} {x : Nat} :
    ((m.map (·.1)).contains x) = true ↔ ∃ v, (x, v) ∈ m := by
  induction m with
  | nil => simp
  | cons a t ih =>
    rw [List.map_cons, List.contains_cons]
    constructor
    · intro hc
      simp only [Bool.or_eq_true, beq_iff_eq] at hc
      rcases hc with hc | hc
      · refine ⟨a.2, ?_⟩
        rw [hc]
        simp
      · rcases ih.1 hc with ⟨v, hv⟩
        exact ⟨v, List.mem_cons_of_mem _ hv⟩
    · rintro ⟨v, hv⟩
      simp only [Bool.or_eq_true, beq_iff_eq]
      rcases List.mem_cons.1 hv with hv | hv
      · left
        exact congrArg Prod.fst hv
      · right
        exact ih.2 ⟨v, hv⟩

theorem filter_keys_of_filter {α : Type _} (l : List (Nat × α)) (q : Nat × α → Bool)
    (hnd : (keys l).Nodup) :
    l.filter (fun p => !(((l.filter q).map (·.1)).contains p.1))
      = l.filter (fun p => !(q p)) := by
  apply List.filter_congr
  intro p hp
  congr 1
  cases hq : q p
  · have : (((l.filter q).map (·.1)).contains p.1) = false := by
      cases hc : ((l.filter q).map (·.1)).contains p.1
      · rfl
      · exfalso
        rcases contains_keys_iff.1 hc with ⟨v, hv⟩
        have hvl := List.mem_filter.1 hv
        have hvp : v = p.2 := by
          apply nodup_entries_unique hnd hvl.1
          simpa using hp
        rw [hvp] at hvl
        have : q p = true := by
          have := hvl.2
          rwa [show ((p.1, p.2) : Nat × α) = p from by simp] at this
        rw [this] at hq
        exact Bool.noConfusion hq
    rw [this]
  · have : (((l.filter q).map (·.1)).contains p.1) = true := by
      apply contains_keys_iff.2
      refine ⟨p.2, ?_⟩
      apply List.mem_filter.2
      constructor
      · simpa using hp
      · rwa [show ((p.1, p.2) : Nat × α) = p from by simp]
    rw [this]

theorem inv_delete_course (σ : State) (cid : Nat) (h : Inv σ) :
    Inv (delete_course σ cid).2 := by
  unfold delete_course
  split
  · exact h
  · dsimp only
    rw [foldl_delDict, filter_keys_of_filter _ _ h.nodupE]
    refine ⟨h.nodupP, h.nodupS, ?_, ?_, h.keyIdP, h.keyIdS, ?_, ?_,
      h.ctrP, h.ctrS, ?_, ?_, ?_, ?_, ?_, ?_, h.probImp⟩
    · exact List.Nodup.sublist (keys_delDict_sublist _ _) h.nodupC
    · exact List.Nodup.sublist ((List.filter_sublist _).map _) h.nodupE
    · exact delDict_forall _ h.keyIdC
    · intro p hp
      exact h.keyIdE p (List.mem_filter.1 hp).1
    · exact delDict_forall _ h.ctrC
    · intro p hp
      exact h.ctrE p (List.mem_filter.1 hp).1
    · intro p hp
      have hpc := (mem_delDict.1 hp).1
      have hne := (mem_delDict.1 hp).2
      have hfil : (σ.enrollments.filter (fun r => !(r.2.course_id == cid))).filter
          (fun r => r.2.course_id == p.1)
          = σ.enrollments.filter (fun r => r.2.course_id == p.1) := by
        rw [List.filter_filter]
        apply List.filter_congr
        intro r _
        cases hrp : (r.2.course_id == p.1)
        · simp
        · have : r.2.course_id = p.1 := by simpa using hrp
          have : (r.2.course_id == cid) = false := by
            simp only [beq_eq_false_iff_ne, ne_eq, this]
            exact hne
          simp [this]
      show p.2.enrolled_students
        = (((σ.enrollments.filter (fun r => !(r.2.course_id == cid))).filter
            (fun r => r.2.course_id == p.1)).length : Int)
      rw [hfil]
      exact h.countInv p hpc
    · intro p hp
      exact h.refS p (List.mem_filter.1 hp).1
    · intro p hp
      have hmem := (List.mem_filter.1 hp).1
      have hne : p.2.course_id ≠ cid := by
        have := (List.mem_filter.1 hp).2
        simpa using this
      show dictHas (delDict σ.courses cid) p.2.course_id = true
      unfold dictHas
      rw [dictGet_delDict _ _ _ hne]
      exact h.refC p hmem
    · exact List.Nodup.sublist (pairsOf_sublist (List.filter_sublist _)) h.dupFree

theorem inv_delete_student (σ : State) (sid : Nat) (h : Inv σ) :
    Inv (delete_student σ sid).2 := by
  unfold delete_student
  split
  · exact h
  · dsimp only
    rw [cascadeDrop_spec, foldl_dec_courses, foldl_delDict,
      filter_keys_of_filter _ _ h.nodupE]
    have hkeys : keys (σ.courses.map (fun p : Nat × Course => (p.1,
        { p.2 with enrolled_students :=
        p.2.enrolled_students
          - (((σ.enrollments.filter (fun r : Nat × Enrollment => r.2.student_id == sid)).filter
              (fun e : Nat × Enrollment => e.2.course_id == p.1)).length : Int) })))
        = keys σ.courses := by
      unfold keys
      rw [List.map_map]
      apply List.map_congr_left
      intro p _
      rfl
    refine ⟨h.nodupP, ?_, ?_, ?_, h.keyIdP, ?_, ?_, ?_,
      h.ctrP, ?_, ?_, ?_, ?_, ?_, ?_, ?_, ?_⟩
    · exact List.Nodup.sublist (keys_delDict_sublist _ _) h.nodupS
    · rw [hkeys]
      exact h.nodupC
    · exact List.Nodup.sublist ((List.filter_sublist _).map _) h.nodupE
    · exact delDict_forall _ h.keyIdS
    · intro p hp
      rcases List.mem_map.1 hp with ⟨q, hq, hqe⟩
      rw [← hqe]
      exact h.keyIdC q hq
    · intro p hp
      exact h.keyIdE p (List.mem_filter.1 hp).1
    · exact delDict_forall _ h.ctrS
    · intro p hp
      rcases List.mem_map.1 hp with ⟨q, hq, hqe⟩
      rw [← hqe]
      exact h.ctrC q hq
    · intro p hp
      exact h.ctrE p (List.mem_filter.1 hp).1
    · -- countInv
      intro p hp
      rcases List.mem_map.1 hp with ⟨q, hq, hqe⟩
      rw [← hqe]
      show q.2.enrolled_students
          - (((σ.enrollments.filter (fun r => r.2.student_id == sid)).filter
              (fun e => e.2.course_id == q.1)).length : Int)
        = (((σ.enrollments.filter (fun r => !(r.2.student_id == sid))).filter
            (fun r => r.2.course_id == q.1)).length : Int)
      have hm : (σ.enrollments.filter (fun r => r.2.student_id == sid)).filter
            (fun e => e.2.course_id == q.1)
          = σ.enrollments.filter (fun r => r.2.course_id == q.1 && r.2.student_id == sid) := by
        rw [List.filter_filter]
      have hrest : (σ.enrollments.filter (fun r => !(r.2.student_id == sid))).filter
            (fun r => r.2.course_id == q.1)
          = σ.enrollments.filter
              (fun r => r.2.course_id == q.1 && !(r.2.student_id == sid)) := by
        rw [List.filter_filter]
      have hsplit := length_filter_split σ.enrollments
        (fun r => r.2.course_id == q.1) (fun r => r.2.student_id == sid)
      have hci := h.countInv q hq
      unfold enrollCount at hci
      rw [hm, hrest, hci, hsplit]
      push_cast
      ring
    · intro p hp
      have hmem := (List.mem_filter.1 hp).1
      have hne : p.2.student_id ≠ sid := by
        have := (List.mem_filter.1 hp).2
        simpa using this
      show dictHas (delDict σ.students sid) p.2.student_id = true
      unfold dictHas
      rw [dictGet_delDict _ _ _ hne]
      exact h.refS p hmem
    · intro p hp
      have hmem := (List.mem_filter.1 hp).1
      show dictHas _ p.2.course_id = true
      rw [dictHas_iff, hkeys, ← dictHas_iff]
      exact h.refC p hmem
    · exact List.Nodup.sublist (pairsOf_sublist (List.filter_sublist _)) h.dupFree
    · exact delDict_forall _ h.probImp

theorem credits_dictGet_map (l : List (Nat × Course)) (F : Nat × Course → Nat × Course)
    (hfst : ∀ p, (F p).1 = p.1) (hcred : ∀ p, (F p).2.credits = p.2.credits) (x : Nat) :
    (dictGet (l.map F) x).map Course.credits = (dictGet l x).map Course.credits := by
  induction l with
  | nil => rfl
  | cons a t ih =>
    rw [List.map_cons]
    rcases hFa : F a with ⟨k, v⟩
    have hk : k = a.1 := by
      have := hfst a
      rw [hFa] at this
      exact this
    have hv : v.credits = a.2.credits := by
      have := hcred a
      rw [hFa] at this
      exact this
    rcases a with ⟨a1, a2⟩
    rw [dictGet_cons, dictGet_cons]
    by_cases hx : a1 = x
    · rw [hk]
      rw [if_pos hx, if_pos hx]
      simp [hv]
    · rw [hk]
      rw [if_neg hx, if_neg hx]
      exact ih

theorem gpaInv_create_professor (σ : State) (d : ProfessorCreate) (hg : GpaInv σ) :
    GpaInv (create_professor σ d).2 := by
  unfold create_professor
  split
  · exact hg
  · split
    · exact hg
    · exact hg

theorem gpaInv_update_professor (σ : State) (pid : Nat) (d : ProfessorUpdate)
    (hg : GpaInv σ) : GpaInv (update_professor σ pid d).2 := by
  unfold update_professor
  split
  · exact hg
  · split
    · exact hg
    · exact hg

theorem gpaInv_delete_professor (σ : State) (pid : Nat) (hg : GpaInv σ) :
    GpaInv (delete_professor σ pid).2 := by
  unfold delete_professor
  split
  · exact hg
  · split
    · exact hg
    · exact hg

theorem gpaInv_create_student (σ : State) (d : StudentCreate) (h : Inv σ)
    (hg : GpaInv σ) : GpaInv (create_student σ d).2 := by
  unfold create_student
  split
  · exact hg
  · dsimp only
    intro p hp
    rcases List.mem_append.1 hp with hp | hp
    · exact hg p hp
    · rw [List.mem_singleton.1 hp]
      show (0 : ℚ) = gpaOfParts σ.courses σ.enrollments σ.next_student_id
      have hnil : σ.enrollments.filter
          (fun p => p.2.student_id == σ.next_student_id && gradeTruthy p.2.grade) = [] := by
        rw [List.filter_eq_nil_iff]
        intro q hq
        have hs := h.refS q hq
        rw [dictHas_iff] at hs
        rcases mem_keys.1 hs with ⟨v, hv⟩
        have := h.ctrS (q.2.student_id, v) hv
        simp only [Bool.and_eq_true, beq_iff_eq, not_and]
        intro hqs
        omega
      unfold gpaOfParts
      rw [hnil]
      rfl

theorem gpaInv_update_student (σ : State) (sid : Nat) (d : StudentUpdate)
    (hg : GpaInv σ) : GpaInv (update_student σ sid d).2 := by
  unfold update_student
  split
  · exact hg
  · split
    · exact hg
    · dsimp only
      intro p hp
      refine mapDict_forall σ.students sid (fun s => applyStudentUpdate s d)
        (fun q => q.2.gpa = gpaOf σ q.1) ?_ ?_ p hp
      · intro q hq _
        exact hg q hq
      · intro q hq _
        exact hg q hq

theorem gpaInv_create_course (σ : State) (d : CourseCreate) (h : Inv σ)
    (hg : GpaInv σ) : GpaInv (create_course σ d).2 := by
  unfold create_course
  split
  · exact hg
  · split
    · exact hg
    · dsimp only
      intro p hp
      rw [hg p hp]
      refine (gpaOfParts_congr rfl ?_).symm
      intro r hr
      have hc := h.refC r (List.mem_filter.1 hr).1
      unfold dictHas at hc
      cases hget : dictGet σ.courses r.2.course_id
      · rw [hget] at hc
        simp at hc
      · rw [dictGet_append_left _ hget]

theorem gpaInv_enroll (σ : State) (sid cid : Nat) (_h : Inv σ)
    (hg : GpaInv σ) : GpaInv (enroll_student_in_course σ sid cid).2 := by
  unfold enroll_student_in_course
  split
  · exact hg
  · split
    · exact hg
    · split
      · exact hg
      · split
        · exact hg
        · dsimp only
          intro p hp
          rw [hg p hp]
          refine (gpaOfParts_congr ?_ ?_).symm
          · rw [List.filter_append]
            have hsing : (([(σ.next_enrollment_id,
                (⟨σ.next_enrollment_id, sid, cid, σ.today, none⟩ : Enrollment))]).filter
                (fun q => q.2.student_id == p.1 && gradeTruthy q.2.grade)) = [] := by
              simp [gradeTruthy]
            rw [hsing, List.append_nil]
          · intro r _
            exact credits_dictGet_map σ.courses
              (fun q => if q.1 = cid then
                (q.1, { q.2 with enrolled_students := q.2.enrolled_students + 1 }) else q)
              (fun q => by by_cases hq : q.1 = cid <;> simp [hq])
              (fun q => by by_cases hq : q.1 = cid <;> simp [hq])
              r.2.course_id

theorem gpaInv_delete_student (σ : State) (sid : Nat) (h : Inv σ)
    (hg : GpaInv σ) : GpaInv (delete_student σ sid).2 := by
  unfold delete_student
  split
  · exact hg
  · dsimp only
    rw [cascadeDrop_spec, foldl_dec_courses, foldl_delDict,
      filter_keys_of_filter _ _ h.nodupE]
    intro p hp
    have hpm := (mem_delDict.1 hp).1
    have hpne : p.1 ≠ sid := (mem_delDict.1 hp).2
    rw [hg p hpm]
    refine (gpaOfParts_congr ?_ ?_).symm
    · rw [List.filter_filter]
      apply List.filter_congr
      intro r _
      cases hb : (r.2.student_id == p.1 && gradeTruthy r.2.grade)
      · simp
      · have hrs : r.2.student_id = p.1 := by
          have hb2 := hb
          simp only [Bool.and_eq_true, beq_iff_eq] at hb2
          exact hb2.1
        have : (!(r.2.student_id == sid)) = true := by
          simp only [Bool.not_eq_true', beq_eq_false_iff_ne, ne_eq, hrs]
          exact hpne
        simp [this]
    · intro r _
      exact credits_dictGet_map σ.courses
        (fun q => (q.1, { q.2 with enrolled_students := q.2.enrolled_students
          - (((σ.enrollments.filter (fun s => s.2.student_id == sid)).filter
              (fun e => e.2.course_id == q.1)).length : Int) }))
        (fun q => rfl) (fun q => rfl) r.2.course_id

theorem gpaInv_calculate_gpa (σ : State) (sid : Nat)
    (hg0 : ∀ p ∈ σ.students, p.1 ≠ sid → p.2.gpa = gpaOf σ p.1) :
    GpaInv (calculate_gpa σ sid) := by
  unfold calculate_gpa
  split
  · rename_i hnone
    intro p hp
    have hne : p.1 ≠ sid := by
      intro hps
      rw [dictGet_eq_none] at hnone
      exact hnone (hps ▸ mem_keys.2 ⟨p.2, by simpa using hp⟩)
    exact hg0 p hp hne
  · dsimp only
    intro p hp
    refine mapDict_forall σ.students sid (setGpaFlag (gpaOf σ sid))
      (fun q => q.2.gpa = gpaOf σ q.1) ?_ ?_ p hp
    · intro q hq hne
      exact hg0 q hq hne
    · intro q hq hqs
      show gpaOf σ sid = gpaOf σ q.1
      rw [hqs]

theorem gpaInv_update_enrollment_grade (σ : State) (sid cid : Nat) (g : String)
    (h : Inv σ) (hg : GpaInv σ) : GpaInv (update_enrollment_grade σ sid cid g).2 := by
  unfold update_enrollment_grade
  split
  · exact hg
  · split
    · exact hg
    · rename_i k hk
      rcases get_enrollment_key_some hk with ⟨e, hmem, hes, hec⟩
      dsimp only
      apply gpaInv_calculate_gpa
      intro p hp hne
      rw [hg p hp]
      refine (gpaOfParts_congr ?_ ?_).symm
      · refine filter_mapDict_of_false σ.enrollments k
          (fun e => { e with grade := some (strUpper g) })
          (fun r => r.2.student_id == p.1 && gradeTruthy r.2.grade) ?_
        intro q hq hqk
        have hqe : q.2 = e := nodup_entries_unique h.nodupE (by
          rw [← hqk]
          simpa using hq) hmem
        have hstud : q.2.student_id = sid := by
          rw [hqe]
          exact hes
        have hb : (q.2.student_id == p.1) = false := by
          simp only [beq_eq_false_iff_ne, ne_eq, hstud]
          intro hcontra
          exact hne hcontra.symm
        constructor
        · show ((q.2.student_id == p.1) && _) = false
          rw [hb]
          rfl
        · show ((q.2.student_id == p.1) && _) = false
          rw [hb]
          rfl
      · intro r _
        rfl

theorem gpaInv_drop_course (σ : State) (sid cid : Nat) (h : Inv σ) (hg : GpaInv σ) :
    GpaInv (drop_course σ sid cid).2 := by
  unfold drop_course
  split
  · exact hg
  · rename_i k hk
    rcases get_enrollment_key_some hk with ⟨e, hmem, hes, hec⟩
    have hhasc : dictHas σ.courses cid = true := by
      have := h.refC (k, e) hmem
      rw [show (k, e).2.course_id = cid from hec] at this
      exact this
    dsimp only
    rw [if_pos hhasc]
    apply gpaInv_calculate_gpa
    intro p hp hne
    rw [hg p hp]
    refine (gpaOfParts_congr ?_ ?_).symm
    · refine filter_delDict_of_false σ.enrollments k
        (fun r => r.2.student_id == p.1 && gradeTruthy r.2.grade) ?_
      intro q hq hqk
      have hqe : q.2 = e := nodup_entries_unique h.nodupE (by
        rw [← hqk]
        simpa using hq) hmem
      have hstud : q.2.student_id = sid := by
        rw [hqe]
        exact hes
      have hb : (q.2.student_id == p.1) = false := by
        simp only [beq_eq_false_iff_ne, ne_eq, hstud]
        intro hcontra
        exact hne hcontra.symm
      show ((q.2.student_id == p.1) && _) = false
      rw [hb]
      rfl
    · intro r _
      exact credits_dictGet_map σ.courses
        (fun q => if q.1 = cid then
          (q.1, { q.2 with enrolled_students := q.2.enrolled_students - 1 }) else q)
        (fun q => by by_cases hq : q.1 = cid <;> simp [hq])
        (fun q => by by_cases hq : q.1 = cid <;> simp [hq])
        r.2.course_id

theorem inv_step (σ : State) (op : Op) (h : Inv σ) : Inv (step σ op).2 := by
  cases op with
  | createProfessor d => exact inv_create_professor σ d h
  | updateProfessor pid d => exact inv_update_professor σ pid d h
  | deleteProfessor pid => exact inv_delete_professor σ pid h
  | createStudent d => exact inv_create_student σ d h
  | updateStudent sid d => exact inv_update_student σ sid d h
  | deleteStudent sid => exact inv_delete_student σ sid h
  | createCourse d => exact inv_create_course σ d h
  | updateCourse cid d => exact inv_update_course σ cid d h
  | deleteCourse cid => exact inv_delete_course σ cid h
  | enroll sid cid => exact inv_enroll σ sid cid h
  | setGrade sid cid g => exact inv_update_enrollment_grade σ sid cid g h
  | dropEnrollment sid cid => exact inv_drop_course σ sid cid h

theorem reachable_inv {σ : State} (h : Reachable σ) : Inv σ := by
  induction h with
  | init => exact inv_initialState
  | next σ0 op _ ih => exact inv_step σ0 op ih

theorem gpaInv_initialState : GpaInv initialState := by
  intro p hp
  rcases List.mem_singleton.1 hp with rfl
  decide

theorem gpaInv_step (σ : State) (op : Op) (h : Inv σ) (hg : GpaInv σ)
    (hop : preservesGpa op) : GpaInv (step σ op).2 := by
  cases op with
  | createProfessor d => exact gpaInv_create_professor σ d hg
  | updateProfessor pid d => exact gpaInv_update_professor σ pid d hg
  | deleteProfessor pid => exact gpaInv_delete_professor σ pid hg
  | createStudent d => exact gpaInv_create_student σ d h hg
  | updateStudent sid d => exact gpaInv_update_student σ sid d hg
  | deleteStudent sid => exact gpaInv_delete_student σ sid h hg
  | createCourse d => exact gpaInv_create_course σ d h hg
  | updateCourse cid d => exact hop.elim
  | deleteCourse cid => exact hop.elim
  | enroll sid cid => exact gpaInv_enroll σ sid cid h hg
  | setGrade sid cid g => exact gpaInv_update_enrollment_grade σ sid cid g h hg
  | dropEnrollment sid cid => exact gpaInv_drop_course σ sid cid h hg

theorem enroll_no_student {σ : State} {s c : Nat} (hst : dictGet σ.students s = none) :
    enroll_student_in_course σ s c = (some (Err.notFound "Student"), σ) := by
  simp only [enroll_student_in_course, hst]

theorem enroll_no_course {σ : State} {s c : Nat} {st : Student}
    (hst : dictGet σ.students s = some st) (hco : dictGet σ.courses c = none) :
    enroll_student_in_course σ s c = (some (Err.notFound "Course"), σ) := by
  simp only [enroll_student_in_course, hst, hco]

theorem enroll_capacity {σ : State} {s c : Nat} {st : Student} {co : Course}
    (hst : dictGet σ.students s = some st) (hco : dictGet σ.courses c = some co)
    (hcap : (co.max_capacity : Int) ≤ co.enrolled_students) :
    enroll_student_in_course σ s c
      = (some (Err.conflict "ENROLLMENT_CAPACITY_EXCEEDED"), σ) := by
  simp only [enroll_student_in_course, hst, hco]
  rw [if_pos hcap]

theorem enroll_duplicate {σ : State} {s c : Nat} {st : Student} {co : Course}
    (hst : dictGet σ.students s = some st) (hco : dictGet σ.courses c = some co)
    (hcap : co.enrolled_students < (co.max_capacity : Int))
    (hdup : (get_enrollment_key_by_ids σ st.id co.id).isSome = true) :
    enroll_student_in_course σ s c
      = (some (Err.conflict "DUPLICATE_ENROLLMENT"), σ) := by
  simp only [enroll_student_in_course, hst, hco]
  rw [if_neg (not_le.2 hcap), if_pos hdup]

theorem enroll_success {σ : State} {s c : Nat} {st : Student} {co : Course}
    (hst : dictGet σ.students s = some st) (hco : dictGet σ.courses c = some co)
    (hcap : co.enrolled_students < (co.max_capacity : Int))
    (hdup : get_enrollment_key_by_ids σ st.id co.id = none) :
    enroll_student_in_course σ s c
      = (none, { σ with
          enrollments := σ.enrollments ++ [(σ.next_enrollment_id,
            ⟨σ.next_enrollment_id, s, c, σ.today, none⟩)],
          courses := mapDict σ.courses c
            (fun cc => { cc with enrolled_students := cc.enrolled_students + 1 }),
          next_enrollment_id := σ.next_enrollment_id + 1 }) := by
  simp only [enroll_student_in_course, hst, hco]
  rw [if_neg (not_le.2 hcap), if_neg (by rw [hdup]; simp)]

/-- C1: in every reachable store state, `enroll` succeeds exactly when the
student is live, the course is live, the course is strictly below capacity,
and no live enrollment links the pair; the first failing check in that order
determines the error; and on success exactly one new enrollment — keyed by the
next enrollment id, dated today, ungraded — is appended and the course's
`enrolled_students` is incremented by exactly one, everything else unchanged. -/
theorem claim_C1_enroll_contract (σ : State) (hσ : Reachable σ) (s c : Nat) :
    ((enroll_student_in_course σ s c).1 = none ↔
      (dictGet σ.students s).isSome = true
      ∧ (dictGet σ.courses c).isSome = true
      ∧ (∀ co, dictGet σ.courses c = some co →
          co.enrolled_students < (co.max_capacity : Int))
      ∧ get_enrollment_key_by_ids σ s c = none)
    ∧ (dictGet σ.students s = none →
        enroll_student_in_course σ s c = (some (Err.notFound "Student"), σ))
    ∧ (∀ st, dictGet σ.students s = some st → dictGet σ.courses c = none →
        enroll_student_in_course σ s c = (some (Err.notFound "Course"), σ))
    ∧ (∀ st co, dictGet σ.students s = some st → dictGet σ.courses c = some co →
        (co.max_capacity : Int) ≤ co.enrolled_students →
        enroll_student_in_course σ s c
          = (some (Err.conflict "ENROLLMENT_CAPACITY_EXCEEDED"), σ))
    ∧ (∀ st co, dictGet σ.students s = some st → dictGet σ.courses c = some co →
        co.enrolled_students < (co.max_capacity : Int) →
        (get_enrollment_key_by_ids σ s c).isSome = true →
        enroll_student_in_course σ s c
          = (some (Err.conflict "DUPLICATE_ENROLLMENT"), σ))
    ∧ (∀ σ2, enroll_student_in_course σ s c = (none, σ2) →
        ∃ co, dictGet σ.courses c = some co
          ∧ σ2.enrollments = σ.enrollments
              ++ [(σ.next_enrollment_id, ⟨σ.next_enrollment_id, s, c, σ.today, none⟩)]
          ∧ dictGet σ2.courses c
              = some { co with enrolled_students := co.enrolled_students + 1 }
          ∧ (∀ x, x ≠ c → dictGet σ2.courses x = dictGet σ.courses x)
          ∧ σ2.students = σ.students ∧ σ2.professors = σ.professors
          ∧ σ2.today = σ.today) := by
  have hinv := reachable_inv hσ
  have hidS : ∀ st : Student, dictGet σ.students s = some st → st.id = s :=
    fun st hst => hinv.keyIdS (s, st) (mem_of_dictGet hst)
  have hidC : ∀ co : Course, dictGet σ.courses c = some co → co.id = c :=
    fun co hco => hinv.keyIdC (c, co) (mem_of_dictGet hco)
  refine ⟨?_, ?_, ?_, ?_, ?_, ?_⟩
  · constructor
    · intro hr
      cases hst : dictGet σ.students s with
      | none =>
        rw [enroll_no_student hst] at hr
        simp at hr
      | some st =>
        cases hco : dictGet σ.courses c with
        | none =>
          rw [enroll_no_course hst hco] at hr
          simp at hr
        | some co =>
          by_cases hcap : (co.max_capacity : Int) ≤ co.enrolled_students
          · rw [enroll_capacity hst hco hcap] at hr
            simp at hr
          · have hcap2 := not_le.1 hcap
            cases hdup : get_enrollment_key_by_ids σ st.id co.id with
            | some k =>
              rw [enroll_duplicate hst hco hcap2 (by rw [hdup]; rfl)] at hr
              simp at hr
            | none =>
              refine ⟨rfl, rfl, ?_, ?_⟩
              · intro co2 hco2
                rcases Option.some.inj hco2 with rfl
                exact hcap2
              · rw [← hidS st hst, ← hidC co hco]
                exact hdup
    · rintro ⟨h1, h2, h3, h4⟩
      rcases Option.isSome_iff_exists.1 h1 with ⟨st, hst⟩
      rcases Option.isSome_iff_exists.1 h2 with ⟨co, hco⟩
      have hcap := h3 co hco
      have hdup : get_enrollment_key_by_ids σ st.id co.id = none := by
        rw [hidS st hst, hidC co hco]
        exact h4
      rw [enroll_success hst hco hcap hdup]
  · intro hst
    exact enroll_no_student hst
  · intro st hst hco
    exact enroll_no_course hst hco
  · intro st co hst hco hcap
    exact enroll_capacity hst hco hcap
  · intro st co hst hco hcap hdup
    refine enroll_duplicate hst hco hcap ?_
    rw [hidS st hst, hidC co hco]
    exact hdup
  · intro σ2 hres
    cases hst : dictGet σ.students s with
    | none =>
      rw [enroll_no_student hst] at hres
      exact Option.noConfusion (congrArg Prod.fst hres)
    | some st =>
      cases hco : dictGet σ.courses c with
      | none =>
        rw [enroll_no_course hst hco] at hres
        exact Option.noConfusion (congrArg Prod.fst hres)
      | some co =>
        by_cases hcap : (co.max_capacity : Int) ≤ co.enrolled_students
        · rw [enroll_capacity hst hco hcap] at hres
          exact Option.noConfusion (congrArg Prod.fst hres)
        · have hcap2 := not_le.1 hcap
          cases hdup : get_enrollment_key_by_ids σ st.id co.id with
          | some k =>
            rw [enroll_duplicate hst hco hcap2 (by rw [hdup]; rfl)] at hres
            exact Option.noConfusion (congrArg Prod.fst hres)
          | none =>
            rw [enroll_success hst hco hcap2 hdup] at hres
            rw [Prod.mk.injEq] at hres
            obtain ⟨-, hT⟩ := hres
            subst hT
            refine ⟨co, rfl, rfl, ?_, ?_, rfl, rfl, rfl⟩
            · show dictGet (mapDict σ.courses c
                (fun cc => { cc with enrolled_students := cc.enrolled_students + 1 })) c
                = _
              rw [dictGet_mapDict, if_pos rfl, hco]
              rfl
            · intro x hx
              show dictGet (mapDict σ.courses c
                (fun cc => { cc with enrolled_students := cc.enrolled_students + 1 })) x
                = _
              rw [dictGet_mapDict, if_neg (fun hh : c = x => hx hh.symm)]

/-- Witness for C1: from the initial database (where student 1 is already
enrolled in course 1 and the course is below capacity), re-enrolling the pair
fails with the duplicate-enrollment conflict and leaves the store unchanged. -/
theorem claim_C1_enroll_contract_witness :
    enroll_student_in_course initialState 1 1
      = (some (Err.conflict "DUPLICATE_ENROLLMENT"), initialState) :=
  (claim_C1_enroll_contract initialState Reachable.init 1 1).2.2.2.2.1
    ⟨1, "Joan Clarke", "joan.clarke@example.com", "Mathematics", 2, 0, false⟩
    ⟨1, "Introduction to Cryptography", "CS101", 3, 30, 1, 1⟩
    (by decide) (by decide) (by decide) (by decide)

/-- C2: in every reachable store state, every live course's `enrolled_students`
equals the number of live enrollments referencing it. -/
theorem claim_C2_enrolled_count (σ : State) (h : Reachable σ) :
    ∀ cid co, dictGet σ.courses cid = some co →
      co.enrolled_students = (enrollCount σ cid : Int) := by
  intro cid co hco
  exact (reachable_inv h).countInv (cid, co) (mem_of_dictGet hco)

/-- Witness for C2 at the initial database: course 1 stores count 1 and has
exactly one live enrollment. -/
theorem claim_C2_enrolled_count_witness :
    (⟨1, "Introduction to Cryptography", "CS101", 3, 30, 1, 1⟩ : Course).enrolled_students
      = (enrollCount initialState 1 : Int) :=
  claim_C2_enrolled_count initialState Reachable.init 1
    ⟨1, "Introduction to Cryptography", "CS101", 3, 30, 1, 1⟩ (by decide)

/-- C4: the three composite operations validate all preconditions before any
write: whenever enroll, grade, or drop returns an error, the returned store is
exactly the input store; and enrolling into a course whose `enrolled_students`
equals `max_capacity` fails with the capacity conflict, unchanged store. -/
theorem claim_C4_failure_atomicity (σ : State) (sid cid : Nat) (g : String) :
    (∀ e σ2, enroll_student_in_course σ sid cid = (some e, σ2) → σ2 = σ)
    ∧ (∀ e σ2, update_enrollment_grade σ sid cid g = (some e, σ2) → σ2 = σ)
    ∧ (∀ e σ2, drop_course σ sid cid = (some e, σ2) → σ2 = σ)
    ∧ (∀ st co, dictGet σ.students sid = some st → dictGet σ.courses cid = some co →
        co.enrolled_students = (co.max_capacity : Int) →
        enroll_student_in_course σ sid cid
          = (some (Err.conflict "ENROLLMENT_CAPACITY_EXCEEDED"), σ)) := by
  refine ⟨?_, ?_, ?_, ?_⟩
  · intro e σ2 hres
    revert hres
    unfold enroll_student_in_course
    repeat' split
    all_goals intro hres
    all_goals first
      | exact (congrArg Prod.snd hres).symm
      | exact Option.noConfusion (show (none : Option Err) = some e from congrArg Prod.fst hres)
  · intro e σ2 hres
    revert hres
    unfold update_enrollment_grade
    repeat' split
    all_goals intro hres
    all_goals first
      | exact (congrArg Prod.snd hres).symm
      | exact Option.noConfusion (show (none : Option Err) = some e from congrArg Prod.fst hres)
  · intro e σ2 hres
    revert hres
    unfold drop_course
    repeat' split
    all_goals intro hres
    all_goals first
      | exact (congrArg Prod.snd hres).symm
      | exact Option.noConfusion (show (none : Option Err) = some e from congrArg Prod.fst hres)
  · intro st co hst hco hcap
    exact enroll_capacity hst hco (le_of_eq hcap.symm)

/-- Witness for C4: create a capacity-1 course, fill it, and watch a further
enroll fail with the capacity conflict while the store is left untouched. -/
theorem claim_C4_failure_atomicity_witness :
    enroll_student_in_course
        (enroll_student_in_course
          (create_course initialState ⟨"Seminar", "CS999", 3, 1, 1⟩).2 1 2).2 1 2
      = (some (Err.conflict "ENROLLMENT_CAPACITY_EXCEEDED"),
         (enroll_student_in_course
          (create_course initialState ⟨"Seminar", "CS999", 3, 1, 1⟩).2 1 2).2) :=
  (claim_C4_failure_atomicity _ 1 2 "A").2.2.2
    ⟨1, "Joan Clarke", "joan.clarke@example.com", "Mathematics", 2, 0, false⟩
    ⟨2, "Seminar", "CS999", 3, 1, 1, 1⟩
    (by decide) (by decide) (by decide)

theorem length_filter_pair_one {E : List (Nat × Enrollment)} {s c : Nat}
    (hdup : (pairsOf E).Nodup)
    (hex : ∃ p ∈ E, p.2.student_id = s ∧ p.2.course_id = c) :
    (E.filter (fun p => p.2.student_id == s && p.2.course_id == c)).length = 1 := by
  induction E with
  | nil =>
    rcases hex with ⟨p, hp, -⟩
    simp at hp
  | cons a t ih =>
    unfold pairsOf at hdup
    rw [List.map_cons, List.nodup_cons] at hdup
    rw [List.filter_cons]
    cases hpa : (a.2.student_id == s && a.2.course_id == c)
    · simp only [Bool.false_eq_true, if_false]
      apply ih hdup.2
      rcases hex with ⟨p, hp, hps, hpc⟩
      rcases List.mem_cons.1 hp with hp | hp
      · exfalso
        rw [← hp] at hpa
        simp [hps, hpc] at hpa
      · exact ⟨p, hp, hps, hpc⟩
    · simp only [if_true, List.length_cons]
      have hpa2 := hpa
      simp only [Bool.and_eq_true, beq_iff_eq] at hpa2
      have : t.filter (fun p => p.2.student_id == s && p.2.course_id == c) = [] := by
        rw [List.filter_eq_nil_iff]
        intro q hq
        intro hq2
        simp only [Bool.and_eq_true, beq_iff_eq] at hq2
        apply hdup.1
        rw [show (a.2.student_id, a.2.course_id)
            = (q.2.student_id, q.2.course_id) from by
          rw [hpa2.1, hpa2.2, hq2.1, hq2.2]]
        exact List.mem_map.2 ⟨q, hq, rfl⟩
      rw [this]
      rfl

/-- C5 counterexample: fill a fresh capacity-1 course with student 1, then
enroll the same pair again: the pair is already enrolled, yet the second call
fails with the capacity conflict, not the duplicate-enrollment conflict. -/
theorem claim_C5_counterexample :
    (get_enrollment_key_by_ids
        (enroll_student_in_course
          (create_course initialState ⟨"Topics", "CS998", 3, 1, 1⟩).2 1 2).2 1 2).isSome = true
    ∧ (enroll_student_in_course
        (enroll_student_in_course
          (create_course initialState ⟨"Topics", "CS998", 3, 1, 1⟩).2 1 2).2 1 2).1
        = some (Err.conflict "ENROLLMENT_CAPACITY_EXCEEDED")
    ∧ (enroll_student_in_course
        (enroll_student_in_course
          (create_course initialState ⟨"Topics", "CS998", 3, 1, 1⟩).2 1 2).2 1 2).1
        ≠ some (Err.conflict "DUPLICATE_ENROLLMENT") := by
  refine ⟨by decide, by decide, by decide⟩

/-- C5 (amended): in every reachable state at most one live enrollment links a
given (student, course) pair, and enrolling an already-enrolled pair fails with
an unchanged store — with the duplicate-enrollment conflict when the course is
below capacity and the capacity conflict when it is full — leaving exactly one
enrollment record for the pair. -/
theorem claim_C5_amended (σ : State) (hσ : Reachable σ) (s c : Nat) :
    (∀ p ∈ σ.enrollments, ∀ q ∈ σ.enrollments,
        p.2.student_id = s → p.2.course_id = c →
        q.2.student_id = s → q.2.course_id = c → p = q)
    ∧ (∀ k, get_enrollment_key_by_ids σ s c = some k →
        ∃ e σ2, enroll_student_in_course σ s c = (some e, σ2)
          ∧ σ2 = σ
          ∧ (∀ co, dictGet σ.courses c = some co →
              (co.enrolled_students < (co.max_capacity : Int) →
                e = Err.conflict "DUPLICATE_ENROLLMENT")
              ∧ ((co.max_capacity : Int) ≤ co.enrolled_students →
                e = Err.conflict "ENROLLMENT_CAPACITY_EXCEEDED"))
          ∧ (σ2.enrollments.filter (fun p =>
              p.2.student_id == s && p.2.course_id == c)).length = 1) := by
  have hinv := reachable_inv hσ
  constructor
  · intro p hp q hq hps hpc hqs hqc
    apply List.inj_on_of_nodup_map hinv.dupFree hp hq
    show (p.2.student_id, p.2.course_id) = (q.2.student_id, q.2.course_id)
    rw [hps, hpc, hqs, hqc]
  · intro k hk
    rcases get_enrollment_key_some hk with ⟨e, hmem, hes, hec⟩
    have hst : (dictGet σ.students s).isSome = true := by
      have := hinv.refS (k, e) hmem
      rw [show (k, e).2.student_id = s from hes] at this
      exact this
    have hco : (dictGet σ.courses c).isSome = true := by
      have := hinv.refC (k, e) hmem
      rw [show (k, e).2.course_id = c from hec] at this
      exact this
    rcases Option.isSome_iff_exists.1 hst with ⟨st, hst⟩
    rcases Option.isSome_iff_exists.1 hco with ⟨co, hco⟩
    have hidS : st.id = s := hinv.keyIdS (s, st) (mem_of_dictGet hst)
    have hidC : co.id = c := hinv.keyIdC (c, co) (mem_of_dictGet hco)
    have hdupS : (get_enrollment_key_by_ids σ st.id co.id).isSome = true := by
      rw [hidS, hidC, hk]
      rfl
    have hone : (σ.enrollments.filter (fun p =>
        p.2.student_id == s && p.2.course_id == c)).length = 1 :=
      length_filter_pair_one hinv.dupFree ⟨(k, e), hmem, hes, hec⟩
    by_cases hcap : (co.max_capacity : Int) ≤ co.enrolled_students
    · refine ⟨Err.conflict "ENROLLMENT_CAPACITY_EXCEEDED", σ,
        enroll_capacity hst hco hcap, rfl, ?_, hone⟩
      intro co2 hco2
      rw [hco] at hco2
      rcases Option.some.inj hco2 with rfl
      constructor
      · intro hlt
        exact absurd hcap (not_le.2 hlt)
      · intro _
        rfl
    · have hcap2 := not_le.1 hcap
      refine ⟨Err.conflict "DUPLICATE_ENROLLMENT", σ,
        enroll_duplicate hst hco hcap2 hdupS, rfl, ?_, hone⟩
      intro co2 hco2
      rw [hco] at hco2
      rcases Option.some.inj hco2 with rfl
      constructor
      · intro _
        rfl
      · intro hle
        exact absurd hle hcap

/-- Witness for the amended C5 at the initial database: the pair (1, 1) is
enrolled, the course is below capacity, so re-enrolling fails with the
duplicate conflict and exactly one enrollment record remains. -/
theorem claim_C5_amended_witness :
    ∃ e σ2, enroll_student_in_course initialState 1 1 = (some e, σ2)
      ∧ σ2 = initialState
      ∧ (∀ co, dictGet initialState.courses 1 = some co →
          (co.enrolled_students < (co.max_capacity : Int) →
            e = Err.conflict "DUPLICATE_ENROLLMENT")
          ∧ ((co.max_capacity : Int) ≤ co.enrolled_students →
            e = Err.conflict "ENROLLMENT_CAPACITY_EXCEEDED"))
      ∧ (σ2.enrollments.filter (fun p =>
          p.2.student_id == 1 && p.2.course_id == 1)).length = 1 :=
  (claim_C5_amended initialState Reachable.init 1 1).2 1 (by decide)

/-- C6 (code bug): `check_unique_email` excludes `current_id` in *both*
collections, so from the initial database, updating professor 1's email to
student 1's email succeeds and leaves a professor and a student — two distinct
records — sharing one email. -/
theorem claim_C6_email_bug :
    (update_professor initialState 1 ⟨none, some "joan.clarke@example.com", none⟩).1 = none
    ∧ dictGet (update_professor initialState 1
        ⟨none, some "joan.clarke@example.com", none⟩).2.professors 1
      = some ⟨1, "Dr. Alan Turing", "joan.clarke@example.com", "Computer Science", 0⟩
    ∧ dictGet (update_professor initialState 1
        ⟨none, some "joan.clarke@example.com", none⟩).2.students 1
      = some ⟨1, "Joan Clarke", "joan.clarke@example.com", "Mathematics", 2, 0, false⟩ := by
  refine ⟨by decide, by decide, by decide⟩

/-- C7 counterexample: the uppercased form of `"cs101"` matches
`^[A-Z]{2,4}\d{3}$`, yet the validator rejects the raw input — course creation
with code `"cs101"` fails with the validation error, contradicting the claim
that `"cs101"` is accepted and stored as `"CS101"`. -/
theorem claim_C7_counterexample :
    courseCodeOk (strUpper "cs101") = true
    ∧ courseCodeOk "cs101" = false
    ∧ create_course initialState ⟨"Intro", "cs101", 3, 30, 1⟩
        = (some (Err.validation "code"), initialState) := by
  refine ⟨by decide, by decide, by decide⟩

/-- C7 (amended): course-code validation runs only at course *creation*, where
it checks the *raw* input against `^[A-Z]{2,4}\d{3}$` (no case normalization
before matching, a trailing newline tolerated by Python's `$`) and stores
`code.upper()` on acceptance; `"CS101"` is accepted, while both `"cs101"` and
`"C1234"` are rejected as malformed.  The *update* payload model performs no
code validation at all: a supplied code — even a malformed one — is applied
and stored raw, without uppercasing. -/
theorem claim_C7_amended (σ : State) (d : CourseCreate) (cid : Nat) (u : CourseUpdate) :
    (((create_course σ d).1 ≠ some (Err.validation "code")) ↔ courseCodeOk d.code = true)
    ∧ (∀ σ2, create_course σ d = (none, σ2) →
        σ2.courses = σ.courses ++ [(σ.next_course_id,
          ⟨σ.next_course_id, d.name, strUpper d.code, d.credits, d.max_capacity,
            d.professor_id, 0⟩)])
    ∧ (∀ co, dictGet σ.courses cid = some co → u.professor_id = none →
        update_course σ cid u
          = (none, { σ with courses := (mapDict σ.courses cid
              (fun c => applyCourseUpdate c u)) })
        ∧ (applyCourseUpdate co u).code = u.code.getD co.code)
    ∧ courseCodeOk "CS101" = true
    ∧ courseCodeOk "cs101" = false
    ∧ courseCodeOk "C1234" = false := by
  refine ⟨?_, ?_, ?_, by decide, by decide, by decide⟩
  · cases hok : courseCodeOk d.code
    · constructor
      · intro hne
        exfalso
        apply hne
        simp only [create_course, hok]
        rfl
      · intro hh
        exact Bool.noConfusion hh
    · constructor
      · intro _
        rfl
      · intro _
        simp only [create_course, hok, Bool.not_true, Bool.false_eq_true, if_false]
        cases hprof : dictHas σ.professors d.professor_id
        · simp only [hprof, Bool.not_false, if_true]
          intro hh
          exact Err.noConfusion (Option.some.inj hh)
        · simp only [hprof, Bool.not_true, Bool.false_eq_true, if_false]
          intro hh
          exact Option.noConfusion hh
  · intro σ2 hres
    revert hres
    unfold create_course
    repeat' split
    all_goals intro hres
    · exact Option.noConfusion (show some (Err.validation "code") = none from
        congrArg Prod.fst hres)
    · exact Option.noConfusion (show some (Err.notFound "Professor") = none from
        congrArg Prod.fst hres)
    · exact (congrArg State.courses (congrArg Prod.snd hres)).symm
  · intro co hco hprofnone
    constructor
    · simp only [update_course, hco, hprofnone, Bool.false_eq_true, if_false]
    · rfl

/-- Witness for the amended C7: creating with the already-uppercase `"CS607"`
succeeds and stores it verbatim, while updating course 1 with the malformed
`"C1234"` succeeds anyway and stores it raw. -/
theorem claim_C7_amended_witness :
    (create_course initialState ⟨"Compilers", "CS607", 4, 20, 1⟩).2.courses
      = initialState.courses ++ [(2, ⟨2, "Compilers", strUpper "CS607", 4, 20, 1, 0⟩)]
    ∧ update_course initialState 1 ⟨none, some "C1234", none, none, none⟩
        = (none, { initialState with courses := (mapDict initialState.courses 1
            (fun c => applyCourseUpdate c ⟨none, some "C1234", none, none, none⟩)) })
    ∧ (applyCourseUpdate ⟨1, "Introduction to Cryptography", "CS101", 3, 30, 1, 1⟩
        ⟨none, some "C1234", none, none, none⟩).code = "C1234" :=
  ⟨(claim_C7_amended initialState ⟨"Compilers", "CS607", 4, 20, 1⟩ 1
      ⟨none, some "C1234", none, none, none⟩).2.1 _ (by decide),
   ((claim_C7_amended initialState ⟨"Compilers", "CS607", 4, 20, 1⟩ 1
      ⟨none, some "C1234", none, none, none⟩).2.2.1
      ⟨1, "Introduction to Cryptography", "CS101", 3, 30, 1, 1⟩ (by decide) rfl).1,
   ((claim_C7_amended initialState ⟨"Compilers", "CS607", 4, 20, 1⟩ 1
      ⟨none, some "C1234", none, none, none⟩).2.2.1
      ⟨1, "Introduction to Cryptography", "CS101", 3, 30, 1, 1⟩ (by decide) rfl).2⟩

/-- When the student is live, `calculate_gpa` stores the recomputed GPA and the
derived probation flag on that student, and the recomputation reads only the
courses and enrollments, which it leaves untouched. -/
theorem calculate_gpa_sets (σ : State) (sid : Nat) {st0 : Student}
    (hst0 : dictGet σ.students sid = some st0) :
    dictGet (calculate_gpa σ sid).students sid = some (setGpaFlag (gpaOf σ sid) st0)
    ∧ gpaOf (calculate_gpa σ sid) sid = gpaOf σ sid := by
  unfold calculate_gpa
  rw [hst0]
  refine ⟨?_, rfl⟩
  dsimp only
  rw [dictGet_mapDict, if_pos rfl, hst0]
  rfl

/-- C3 counterexample: (i) creating a student stores `gpa = 0.0` with
`academic_probation = False` even though `0.0 < 2.0`, so the flag does not
equal `(gpa < 2.0)` after that operation; (ii) grading the initial enrollment
`A` and then deleting the course leaves the student's stored `gpa` at `4.0`
while the recomputation over the (now empty) set of graded enrollments yields
`0.0` — `delete_course` never recomputes GPAs. -/
theorem claim_C3_counterexample :
    ((create_student initialState ⟨"Ada Lovelace", "ada@example.com", "CS", 1⟩).1 = none
      ∧ dictGet (create_student initialState
          ⟨"Ada Lovelace", "ada@example.com", "CS", 1⟩).2.students 2
        = some ⟨2, "Ada Lovelace", "ada@example.com", "CS", 1, 0, false⟩
      ∧ ((0 : ℚ) < 2))
    ∧ ((delete_course (update_enrollment_grade initialState 1 1 "A").2 1).1 = none
      ∧ dictGet (delete_course
          (update_enrollment_grade initialState 1 1 "A").2 1).2.students 1
        = some ⟨1, "Joan Clarke", "joan.clarke@example.com", "Mathematics", 2, 4, false⟩
      ∧ gpaOf (delete_course (update_enrollment_grade initialState 1 1 "A").2 1).2 1 = 0
      ∧ (4 : ℚ) ≠ 0) := by
  refine ⟨⟨by decide, by decide, by decide⟩, by decide, by decide, by decide, by decide⟩

/-- C3 (amended): every operation except course update and course deletion
preserves the invariant that each live student's stored `gpa` equals the
credit-weighted rounded average recomputed from their truthy-graded live
enrollments (0.0 when no credits accumulate); in every reachable state a set
probation flag witnesses `gpa < 2.0`; and a successful grade assignment or
drop re-establishes, for the affected student, both `gpa = recomputed value`
and `academic_probation = (gpa < 2.0)`. -/
theorem claim_C3_amended (σ : State) (op : Op) (hσ : Reachable σ) (hg : GpaInv σ) :
    (preservesGpa op → GpaInv (step σ op).2)
    ∧ (∀ p ∈ σ.students, p.2.academic_probation = true → p.2.gpa < 2)
    ∧ (∀ sid cid g σ2, update_enrollment_grade σ sid cid g = (none, σ2) →
        ∃ st, dictGet σ2.students sid = some st
          ∧ st.gpa = gpaOf σ2 sid
          ∧ st.academic_probation = decide (st.gpa < 2))
    ∧ (∀ sid cid σ2, drop_course σ sid cid = (none, σ2) →
        ∃ st, dictGet σ2.students sid = some st
          ∧ st.gpa = gpaOf σ2 sid
          ∧ st.academic_probation = decide (st.gpa < 2)) := by
  refine ⟨fun hop => gpaInv_step σ op (reachable_inv hσ) hg hop,
    (reachable_inv hσ).probImp, ?_, ?_⟩
  · intro sid cid g σ2 hres
    revert hres
    unfold update_enrollment_grade
    split
    · intro hres
      exact Option.noConfusion (show some (Err.validation "grade") = none from
        congrArg Prod.fst hres)
    · split
      · intro hres
        exact Option.noConfusion (show some (Err.notFound "Enrollment") = none from
          congrArg Prod.fst hres)
      · rename_i k hk
        intro hres
        rcases get_enrollment_key_some hk with ⟨e, hmem, hes, hec⟩
        have hhas : dictHas σ.students sid = true := by
          have := (reachable_inv hσ).refS (k, e) hmem
          rw [show (k, e).2.student_id = sid from hes] at this
          exact this
        rcases Option.isSome_iff_exists.1 hhas with ⟨st0, hst0⟩
        have hσ2 : calculate_gpa { σ with enrollments := (mapDict σ.enrollments k
            (fun e => { e with grade := some (strUpper g) })) } sid = σ2 :=
          congrArg Prod.snd hres
        rw [← hσ2]
        rcases calculate_gpa_sets { σ with enrollments := (mapDict σ.enrollments k
            (fun e => { e with grade := some (strUpper g) })) } sid hst0 with ⟨h1, h2⟩
        exact ⟨_, h1, h2.symm, rfl⟩
  · intro sid cid σ2 hres
    revert hres
    unfold drop_course
    split
    · intro hres
      exact Option.noConfusion (show some (Err.notFound "Enrollment") = none from
        congrArg Prod.fst hres)
    · rename_i k hk
      rcases get_enrollment_key_some hk with ⟨e, hmem, hes, hec⟩
      have hhas : dictHas σ.students sid = true := by
        have := (reachable_inv hσ).refS (k, e) hmem
        rw [show (k, e).2.student_id = sid from hes] at this
        exact this
      rcases Option.isSome_iff_exists.1 hhas with ⟨st0, hst0⟩
      dsimp only
      cases hco : dictHas σ.courses cid
      · rw [if_neg (show ¬(false = true) from Bool.false_ne_true)]
        intro hres
        have hσ2 : calculate_gpa { σ with enrollments := delDict σ.enrollments k } sid = σ2 :=
          congrArg Prod.snd hres
        rw [← hσ2]
        rcases calculate_gpa_sets { σ with enrollments := delDict σ.enrollments k }
          sid hst0 with ⟨h1, h2⟩
        exact ⟨_, h1, h2.symm, rfl⟩
      · rw [if_pos (show true = true from rfl)]
        intro hres
        have hσ2 : calculate_gpa { σ with
            courses := (mapDict σ.courses cid
              (fun c => { c with enrolled_students := c.enrolled_students - 1 })),
            enrollments := delDict σ.enrollments k } sid = σ2 :=
          congrArg Prod.snd hres
        rw [← hσ2]
        rcases calculate_gpa_sets { σ with
            courses := (mapDict σ.courses cid
              (fun c => { c with enrolled_students := c.enrolled_students - 1 })),
            enrollments := delDict σ.enrollments k } sid hst0 with ⟨h1, h2⟩
        exact ⟨_, h1, h2.symm, rfl⟩

/-- Witness for the amended C3: grading the initial enrollment `A` (a
GPA-preserving operation trivially re-established by the recomputation) leaves
student 1 carrying `gpa = 4.0` with the probation flag off, exactly as the
amended clauses dictate. -/
theorem claim_C3_amended_witness :
    GpaInv (step initialState (Op.setGrade 1 1 "A")).2
    ∧ ∃ st, dictGet (update_enrollment_grade initialState 1 1 "A").2.students 1 = some st
        ∧ st.gpa = gpaOf (update_enrollment_grade initialState 1 1 "A").2 1
        ∧ st.academic_probation = decide (st.gpa < 2) :=
  ⟨(claim_C3_amended initialState (Op.setGrade 1 1 "A") Reachable.init
      gpaInv_initialState).1 trivial,
   (claim_C3_amended initialState (Op.setGrade 1 1 "A") Reachable.init
      gpaInv_initialState).2.2.1 1 1 "A"
      (update_enrollment_grade initialState 1 1 "A").2 (by decide)⟩

/-- `calculate_gpa` writes only the students collection: courses, enrollments
and professors pass through unchanged. -/
theorem calculate_gpa_frame (σ : State) (sid : Nat) :
    (calculate_gpa σ sid).courses = σ.courses
    ∧ (calculate_gpa σ sid).enrollments = σ.enrollments
    ∧ (calculate_gpa σ sid).professors = σ.professors := by
  unfold calculate_gpa
  split <;> exact ⟨rfl, rfl, rfl⟩

/-- `drop_course` when no enrollment links the pair: 404, store untouched. -/
theorem drop_none {σ : State} {s c : Nat}
    (h : get_enrollment_key_by_ids σ s c = none) :
    drop_course σ s c = (some (Err.notFound "Enrollment"), σ) := by
  unfold drop_course
  rw [h]

/-- `drop_course` on a live pair whose course still exists: decrement the
course's count, delete the enrollment, recompute the student's GPA. -/
theorem drop_some_live {σ : State} {s c k : Nat}
    (hk : get_enrollment_key_by_ids σ s c = some k)
    (hco : dictHas σ.courses c = true) :
    drop_course σ s c = (none, calculate_gpa { σ with
      courses := (mapDict σ.courses c
        (fun co => { co with enrolled_students := co.enrolled_students - 1 })),
      enrollments := delDict σ.enrollments k } s) := by
  unfold drop_course
  rw [hk]
  dsimp only
  rw [if_pos hco]

/-- `drop_course` on a live pair whose course is already gone: the decrement is
skipped; the enrollment is deleted and the GPA recomputed all the same. -/
theorem drop_some_dead {σ : State} {s c k : Nat}
    (hk : get_enrollment_key_by_ids σ s c = some k)
    (hco : dictHas σ.courses c = false) :
    drop_course σ s c
      = (none, calculate_gpa { σ with enrollments := delDict σ.enrollments k } s) := by
  unfold drop_course
  rw [hk]
  dsimp only
  rw [hco, if_neg Bool.false_ne_true]

/-- C8: in every reachable state, dropping fails with `NotFound` exactly when
no live enrollment links `(s, c)`; on success the course's count is
decremented — never below zero, since the count equals the number of live
enrollments, of which the dropped one is one — the enrollment record is
removed, and the student's GPA and probation flag are recomputed; and (in any
state at all) when the pair is live but the course has been deleted, the
decrement is skipped while the deletion and recomputation still happen. -/
theorem claim_C8_drop_contract (σ : State) (hσ : Reachable σ) (s c : Nat) :
    ((drop_course σ s c).1 = some (Err.notFound "Enrollment")
        ↔ get_enrollment_key_by_ids σ s c = none)
    ∧ ((drop_course σ s c).1 = none ↔ (get_enrollment_key_by_ids σ s c).isSome = true)
    ∧ (∀ k, get_enrollment_key_by_ids σ s c = some k →
        ∃ co, dictGet σ.courses c = some co
          ∧ ∃ σ2, drop_course σ s c = (none, σ2)
            ∧ dictGet σ2.courses c
                = some { co with enrolled_students := co.enrolled_students - 1 }
            ∧ 0 ≤ co.enrolled_students - 1
            ∧ σ2.enrollments = delDict σ.enrollments k
            ∧ (∃ st, dictGet σ2.students s = some st
                ∧ st.gpa = gpaOf σ2 s
                ∧ st.academic_probation = decide (st.gpa < 2)))
    ∧ (∀ (τ : State) (k : Nat), get_enrollment_key_by_ids τ s c = some k →
        dictHas τ.courses c = false →
        drop_course τ s c
          = (none, calculate_gpa { τ with enrollments := delDict τ.enrollments k } s)) := by
  refine ⟨?_, ?_, ?_, fun τ k hk hco => drop_some_dead hk hco⟩
  · cases hkk : get_enrollment_key_by_ids σ s c
    · rw [drop_none hkk]
      exact ⟨fun _ => rfl, fun _ => rfl⟩
    · cases hco : dictHas σ.courses c
      · rw [drop_some_dead hkk hco]
        constructor
        · intro hh
          exact Option.noConfusion hh
        · intro hh
          exact Option.noConfusion hh
      · rw [drop_some_live hkk hco]
        constructor
        · intro hh
          exact Option.noConfusion hh
        · intro hh
          exact Option.noConfusion hh
  · cases hkk : get_enrollment_key_by_ids σ s c
    · rw [drop_none hkk]
      constructor
      · intro hh
        exact Option.noConfusion hh
      · intro hh
        exact Bool.noConfusion hh
    · cases hco : dictHas σ.courses c
      · rw [drop_some_dead hkk hco]
        exact ⟨fun _ => rfl, fun _ => rfl⟩
      · rw [drop_some_live hkk hco]
        exact ⟨fun _ => rfl, fun _ => rfl⟩
  · intro k hk
    have hinv := reachable_inv hσ
    rcases get_enrollment_key_some hk with ⟨e, hmem, hes, hec⟩
    have hcoHas : dictHas σ.courses c = true := by
      have := hinv.refC (k, e) hmem
      rw [show (k, e).2.course_id = c from hec] at this
      exact this
    rcases Option.isSome_iff_exists.1 hcoHas with ⟨co, hco⟩
    have hstHas : dictHas σ.students s = true := by
      have := hinv.refS (k, e) hmem
      rw [show (k, e).2.student_id = s from hes] at this
      exact this
    rcases Option.isSome_iff_exists.1 hstHas with ⟨st0, hst0⟩
    refine ⟨co, hco, _, drop_some_live hk hcoHas, ?_, ?_, ?_, ?_⟩
    · rw [(calculate_gpa_frame { σ with
        courses := (mapDict σ.courses c
          (fun co => { co with enrolled_students := co.enrolled_students - 1 })),
        enrollments := delDict σ.enrollments k } s).1]
      show dictGet (mapDict σ.courses c
        (fun co => { co with enrolled_students := co.enrolled_students - 1 })) c = _
      rw [dictGet_mapDict, if_pos rfl, hco]
      rfl
    · have hcount := hinv.countInv (c, co) (mem_of_dictGet hco)
      have h1le : 0 < enrollCount σ c := by
        have hfm : (k, e) ∈ σ.enrollments.filter (fun p => p.2.course_id == c) :=
          List.mem_filter.2 ⟨hmem, by simp [hec]⟩
        exact List.length_pos_of_mem hfm
      show (0 : Int) ≤ co.enrolled_students - 1
      rw [show co.enrolled_students = ((enrollCount σ c : Nat) : Int) from hcount]
      omega
    · exact (calculate_gpa_frame { σ with
        courses := (mapDict σ.courses c
          (fun co => { co with enrolled_students := co.enrolled_students - 1 })),
        enrollments := delDict σ.enrollments k } s).2.1
    · rcases calculate_gpa_sets { σ with
        courses := (mapDict σ.courses c
          (fun co => { co with enrolled_students := co.enrolled_students - 1 })),
        enrollments := delDict σ.enrollments k } s hst0 with ⟨h1, h2⟩
      exact ⟨_, h1, h2.symm, rfl⟩

/-- Witness for C8: dropping the initial enrollment `(1, 1)` from the initial
database succeeds, takes the course's count from 1 to 0, removes the
enrollment, and recomputes student 1's GPA. -/
theorem claim_C8_drop_contract_witness :
    ∃ co, dictGet initialState.courses 1 = some co
      ∧ ∃ σ2, drop_course initialState 1 1 = (none, σ2)
        ∧ dictGet σ2.courses 1
            = some { co with enrolled_students := co.enrolled_students - 1 }
        ∧ 0 ≤ co.enrolled_students - 1
        ∧ σ2.enrollments = delDict initialState.enrollments 1
        ∧ (∃ st, dictGet σ2.students 1 = some st
            ∧ st.gpa = gpaOf σ2 1
            ∧ st.academic_probation = decide (st.gpa < 2)) :=
  (claim_C8_drop_contract initialState Reachable.init 1 1).2.2.1 1 (by decide)

/-- C9: the enhanced variant's updates patch exactly the payload fields that
are present (`exclude_unset`): the targeted record keeps every absent field —
including the server-managed `id`, `gpa`, `academic_probation` and
`enrolled_students` — while present fields take the payload value verbatim
(the course-update path applies a supplied code raw), all other records and
collections are untouched; the simple variant's `StudentUpdate` requires all
four fields, and its update writes exactly those four, preserving `id` and
`gpa`. -/
theorem claim_C9_partial_update (σ : State) (pid sid cid : Nat)
    (dp : ProfessorUpdate) (ds : StudentUpdate) (dc : CourseUpdate)
    (s0 : Simple.Student) (du : Simple.StudentUpdate) :
    (∀ st, dictGet σ.students sid = some st →
      ∀ σ2, update_student σ sid ds = (none, σ2) →
        dictGet σ2.students sid = some { st with
            name := ds.name.getD st.name, email := ds.email.getD st.email,
            major := ds.major.getD st.major, year := ds.year.getD st.year }
        ∧ (∀ t, t ≠ sid → dictGet σ2.students t = dictGet σ.students t)
        ∧ σ2.professors = σ.professors ∧ σ2.courses = σ.courses
        ∧ σ2.enrollments = σ.enrollments)
    ∧ (∀ pr, dictGet σ.professors pid = some pr →
      ∀ σ2, update_professor σ pid dp = (none, σ2) →
        dictGet σ2.professors pid = some { pr with
            name := dp.name.getD pr.name, email := dp.email.getD pr.email,
            department := dp.department.getD pr.department }
        ∧ (∀ t, t ≠ pid → dictGet σ2.professors t = dictGet σ.professors t)
        ∧ σ2.students = σ.students ∧ σ2.courses = σ.courses
        ∧ σ2.enrollments = σ.enrollments)
    ∧ (∀ co, dictGet σ.courses cid = some co →
      ∀ σ2, update_course σ cid dc = (none, σ2) →
        dictGet σ2.courses cid = some { co with
            name := dc.name.getD co.name,
            code := dc.code.getD co.code,
            credits := dc.credits.getD co.credits,
            max_capacity := dc.max_capacity.getD co.max_capacity,
            professor_id := dc.professor_id.getD co.professor_id }
        ∧ (∀ t, t ≠ cid → dictGet σ2.courses t = dictGet σ.courses t)
        ∧ σ2.students = σ.students ∧ σ2.professors = σ.professors
        ∧ σ2.enrollments = σ.enrollments)
    ∧ ((Simple.applyStudentUpdate s0 du).id = s0.id
        ∧ (Simple.applyStudentUpdate s0 du).gpa = s0.gpa
        ∧ (Simple.applyStudentUpdate s0 du).name = du.name
        ∧ (Simple.applyStudentUpdate s0 du).email = du.email
        ∧ (Simple.applyStudentUpdate s0 du).major = du.major
        ∧ (Simple.applyStudentUpdate s0 du).year = du.year) := by
  refine ⟨?_, ?_, ?_, rfl, rfl, rfl, rfl, rfl, rfl⟩
  · intro st hst σ2 hres
    revert hres
    unfold update_student
    rw [hst]
    dsimp only
    split
    · intro hres
      exact Option.noConfusion (show some _ = none from congrArg Prod.fst hres)
    · intro hres
      have hσ2 : ({ σ with students :=
          (mapDict σ.students sid (fun s => applyStudentUpdate s ds)) } : State) = σ2 :=
        congrArg Prod.snd hres
      rw [← hσ2]
      refine ⟨?_, ?_, rfl, rfl, rfl⟩
      · show dictGet (mapDict σ.students sid (fun s => applyStudentUpdate s ds)) sid = _
        rw [dictGet_mapDict, if_pos rfl, hst]
        rfl
      · intro t ht
        show dictGet (mapDict σ.students sid (fun s => applyStudentUpdate s ds)) t = _
        rw [dictGet_mapDict, if_neg (fun hh => ht hh.symm)]
  · intro pr hpr σ2 hres
    revert hres
    unfold update_professor
    rw [hpr]
    dsimp only
    split
    · intro hres
      exact Option.noConfusion (show some _ = none from congrArg Prod.fst hres)
    · intro hres
      have hσ2 : ({ σ with professors :=
          (mapDict σ.professors pid (fun p => applyProfessorUpdate p dp)) } : State) = σ2 :=
        congrArg Prod.snd hres
      rw [← hσ2]
      refine ⟨?_, ?_, rfl, rfl, rfl⟩
      · show dictGet (mapDict σ.professors pid (fun p => applyProfessorUpdate p dp)) pid = _
        rw [dictGet_mapDict, if_pos rfl, hpr]
        rfl
      · intro t ht
        show dictGet (mapDict σ.professors pid (fun p => applyProfessorUpdate p dp)) t = _
        rw [dictGet_mapDict, if_neg (fun hh => ht hh.symm)]
  · intro co hco σ2 hres
    revert hres
    unfold update_course
    rw [hco]
    dsimp only
    split
    · intro hres
      exact Option.noConfusion (show some _ = none from congrArg Prod.fst hres)
    · intro hres
      have hσ2 : ({ σ with courses :=
          (mapDict σ.courses cid (fun c => applyCourseUpdate c dc)) } : State) = σ2 :=
        congrArg Prod.snd hres
      rw [← hσ2]
      refine ⟨?_, ?_, rfl, rfl, rfl⟩
      · show dictGet (mapDict σ.courses cid (fun c => applyCourseUpdate c dc)) cid = _
        rw [dictGet_mapDict, if_pos rfl, hco]
        rfl
      · intro t ht
        show dictGet (mapDict σ.courses cid (fun c => applyCourseUpdate c dc)) t = _
        rw [dictGet_mapDict, if_neg (fun hh => ht hh.symm)]

/-- Witness for C9: updating student 1 with only a new name changes the name,
keeps email, major, year, gpa and the probation flag, and the simple variant's
update preserves the stored gpa while writing the payload fields. -/
theorem claim_C9_partial_update_witness :
    dictGet (update_student initialState 1
        ⟨some "Joan Clarke-Murray", none, none, none⟩).2.students 1
      = some ⟨1, "Joan Clarke-Murray", "joan.clarke@example.com", "Mathematics", 2, 0, false⟩
    ∧ (Simple.applyStudentUpdate ⟨7, "Ann", "ann@example.com", "Math", 1, 3⟩
        ⟨"Beth", "beth@example.com", "Physics", 2⟩).gpa = 3 :=
  ⟨((claim_C9_partial_update initialState 1 1 1 ⟨none, none, none⟩
      ⟨some "Joan Clarke-Murray", none, none, none⟩ ⟨none, none, none, none, none⟩
      ⟨7, "Ann", "ann@example.com", "Math", 1, 3⟩
      ⟨"Beth", "beth@example.com", "Physics", 2⟩).1
      ⟨1, "Joan Clarke", "joan.clarke@example.com", "Mathematics", 2, 0, false⟩ (by decide)
      (update_student initialState 1 ⟨some "Joan Clarke-Murray", none, none, none⟩).2
      (by decide)).1,
   (claim_C9_partial_update initialState 1 1 1 ⟨none, none, none⟩
      ⟨some "Joan Clarke-Murray", none, none, none⟩ ⟨none, none, none, none, none⟩
      ⟨7, "Ann", "ann@example.com", "Math", 1, 3⟩
      ⟨"Beth", "beth@example.com", "Physics", 2⟩).2.2.2.2.1⟩

/-- A `mapDict` whose function fixes every entry stored under the key is the
identity. -/
theorem mapDict_fix {α : Type _} (l : List (Nat × α)) (k : Nat) (f : α → α)
    (h : ∀ p ∈ l, p.1 = k → f p.2 = p.2) : mapDict l k f = l := by
  unfold mapDict
  have hcong : ∀ p ∈ l, (if p.1 = k then (p.1, f p.2) else p) = id p := by
    intro p hp
    by_cases hk : p.1 = k
    · rw [if_pos hk]
      show (p.1, f p.2) = p
      rw [h p hp hk]
    · rw [if_neg hk]
      rfl
  rw [List.map_congr_left hcong, List.map_id]

/-- Mutating the same key twice with an idempotent function equals mutating it
once. -/
theorem mapDict_mapDict_fix {α : Type _} (l : List (Nat × α)) (k : Nat) (f : α → α)
    (hff : ∀ x, f (f x) = f x) : mapDict (mapDict l k f) k f = mapDict l k f := by
  apply mapDict_fix
  intro p hp hpk
  have hp2 : p ∈ l.map (fun q => if q.1 = k then (q.1, f q.2) else q) := hp
  rcases List.mem_map.1 hp2 with ⟨q, hq, hqe⟩
  by_cases hqk : q.1 = k
  · rw [← hqe, if_pos hqk]
    exact hff q.2
  · exfalso
    rw [← hqe, if_neg hqk] at hpk
    exact hqk hpk

/-- Overwriting one enrollment's grade moves neither the keys nor the
(student, course) pairs, so the pair lookup returns the same key. -/
theorem getKey_grade_mapDict (E : List (Nat × Enrollment)) (k : Nat) (g' : String)
    (s c : Nat) :
    ((mapDict E k (fun e => { e with grade := some g' })).find?
        (fun p => p.2.student_id == s && p.2.course_id == c)).map (fun p => p.1)
      = (E.find? (fun p => p.2.student_id == s && p.2.course_id == c)).map
          (fun p => p.1) := by
  induction E with
  | nil => rfl
  | cons a t ih =>
    rcases a with ⟨a1, a2⟩
    rw [mapDict_cons]
    cases hp : (a2.student_id == s && a2.course_id == c) with
    | true =>
      by_cases ha : a1 = k
      · rw [if_pos ha]
        simp only [List.find?_cons, hp]
        rfl
      · rw [if_neg ha]
        simp only [List.find?_cons, hp]
    | false =>
      by_cases ha : a1 = k
      · rw [if_pos ha]
        simp only [List.find?_cons, hp]
        exact ih
      · rw [if_neg ha]
        simp only [List.find?_cons, hp]
        exact ih

/-- Recomputing a student's GPA twice in a row equals recomputing it once: the
second pass reads the same courses and enrollments and overwrites the same two
fields with the same values. -/
theorem calculate_gpa_idem (σ : State) (sid : Nat) :
    calculate_gpa (calculate_gpa σ sid) sid = calculate_gpa σ sid := by
  cases hst : dictGet σ.students sid with
  | none =>
    have h0 : calculate_gpa σ sid = σ := by
      unfold calculate_gpa
      rw [hst]
    rw [h0]
    exact h0
  | some st =>
    have h1 : calculate_gpa σ sid = { σ with
        students := (mapDict σ.students sid (setGpaFlag (gpaOf σ sid))) } := by
      unfold calculate_gpa
      rw [hst]
    have hst' : dictGet ({ σ with
        students := (mapDict σ.students sid (setGpaFlag (gpaOf σ sid))) } : State).students sid
        = some (setGpaFlag (gpaOf σ sid) st) := by
      show dictGet (mapDict σ.students sid (setGpaFlag (gpaOf σ sid))) sid = _
      rw [dictGet_mapDict, if_pos rfl, hst]
      rfl
    have h2 : calculate_gpa { σ with
        students := (mapDict σ.students sid (setGpaFlag (gpaOf σ sid))) } sid
        = { σ with students := (mapDict
            (mapDict σ.students sid (setGpaFlag (gpaOf σ sid)))
            sid (setGpaFlag (gpaOf σ sid))) } := by
      unfold calculate_gpa
      rw [hst']
      rfl
    rw [h1, h2, mapDict_mapDict_fix σ.students sid (setGpaFlag (gpaOf σ sid))
      (fun x => rfl)]

/-- C10: grading an enrolled pair with a valid letter grade succeeds, and
repeating the identical grade request leaves the store exactly as after the
first: the lookup finds the same enrollment, the grade write is idempotent,
and the GPA recomputation is stable. -/
theorem claim_C10_grade_idempotent (σ : State) (s c : Nat) (g : String)
    (hg : gradeParamOk g = true)
    (henr : (get_enrollment_key_by_ids σ s c).isSome = true) :
    (update_enrollment_grade σ s c g).1 = none
    ∧ update_enrollment_grade (update_enrollment_grade σ s c g).2 s c g
        = (none, (update_enrollment_grade σ s c g).2) := by
  rcases Option.isSome_iff_exists.1 henr with ⟨k, hk⟩
  have h2gen : ∀ τ : State, get_enrollment_key_by_ids τ s c = some k →
      update_enrollment_grade τ s c g
        = (none, calculate_gpa { τ with enrollments := (mapDict τ.enrollments k
            (fun e => { e with grade := some (strUpper g) })) } s) := by
    intro τ hkeyτ
    simp only [update_enrollment_grade, hg, Bool.not_true, Bool.false_eq_true,
      if_false, hkeyτ]
  have h1 := h2gen σ hk
  have hTe : (update_enrollment_grade σ s c g).2.enrollments
      = mapDict σ.enrollments k (fun e => { e with grade := some (strUpper g) }) := by
    rw [h1]
    exact (calculate_gpa_frame { σ with enrollments := (mapDict σ.enrollments k
      (fun e => { e with grade := some (strUpper g) })) } s).2.1
  have hkey : get_enrollment_key_by_ids (update_enrollment_grade σ s c g).2 s c
      = some k := by
    unfold get_enrollment_key_by_ids
    rw [hTe, getKey_grade_mapDict]
    exact hk
  have h2 := h2gen (update_enrollment_grade σ s c g).2 hkey
  refine ⟨by rw [h1], ?_⟩
  rw [h2]
  have hidem : mapDict (update_enrollment_grade σ s c g).2.enrollments k
      (fun e => { e with grade := some (strUpper g) })
      = (update_enrollment_grade σ s c g).2.enrollments := by
    rw [hTe]
    exact mapDict_mapDict_fix σ.enrollments k _ (fun x => rfl)
  rw [hidem]
  show (none, calculate_gpa (update_enrollment_grade σ s c g).2 s) = _
  rw [h1]
  show (none, calculate_gpa (calculate_gpa { σ with enrollments :=
    (mapDict σ.enrollments k (fun e => { e with grade := some (strUpper g) })) } s) s) = _
  rw [calculate_gpa_idem]

/-- Witness for C10: grading the initial enrollment `(1, 1)` with `B` twice
equals grading it once. -/
theorem claim_C10_grade_idempotent_witness :
    (update_enrollment_grade initialState 1 1 "B").1 = none
    ∧ update_enrollment_grade (update_enrollment_grade initialState 1 1 "B").2 1 1 "B"
        = (none, (update_enrollment_grade initialState 1 1 "B").2) :=
  claim_C10_grade_idempotent initialState 1 1 "B" (by decide) (by decide)

end UMS
